import Mathlib

/-!
# zapray: simulation core and collision masks

A shallow embedding of `src/main.cpp` (the `World` tick loop, wave scheduling,
foe advancement, and the `Sprite` collision masks), followed by the properties
established about it.

Modelling conventions:

* `int` is the 32-bit signed type: values are carried in `Int`, and an `int`
  operation of the tick loop whose exact result lies outside
  `INT_MIN .. INT_MAX` is undefined behaviour (`int_value`).
* `float` is `ℚ` (exact arithmetic).
* `uint64_t` is `Nat` reduced modulo `2 ^ 64` wherever the source can overflow.
* Code that can fail returns `Except Fault _`: `Fault.assertion` for a failed
  `assert`, `Fault.exception` for a thrown C++ exception (`std::length_error`
  from `reserve`), `Fault.undefined` for undefined behaviour the source can
  reach (null level, division by zero, signed overflow, out-of-range element
  access, shift count outside `0 .. 63`).
* Debug output (`std::cout`) and rendering data (`ActiveWave::geometry`, GL
  calls) are not part of the simulation state and are left out.
-/

namespace Zapray

/-! ## Faults -/

/-- The ways in which the embedded code can fail. -/
inductive Fault where
  | assertion
  | exception
  | undefined
deriving DecidableEq, Repr

/-- Largest value of the 32-bit `int`. -/
def INT_MAX : Int := 2147483647

/-- Smallest value of the 32-bit `int`. -/
def INT_MIN : Int := -2147483648

/-- The value of an `int` expression whose exact result is `x`: signed overflow
is undefined behaviour. -/
def int_value (x : Int) : Except Fault Int :=
  if INT_MIN ≤ x ∧ x ≤ INT_MAX then .ok x else .error Fault.undefined

/-! ## Data model (`main.cpp` lines 47-82, 177-213) -/

/-- A `glm::vec2` with exact components. -/
abbrev Vec2 := ℚ × ℚ

/-- The `Trajectory` class is declared in `trajectory.h`, which is not among the
sources; the simulation only calls `length()` and `point_at(d)`, so a
trajectory is represented by these two observers, taken as parameters. -/
structure Trajectory where
  length : ℚ
  point_at : ℚ → Vec2

/-- Struct `Wave`. The `const Trajectory *` is represented by the (immutable)
trajectory it points at. -/
structure Wave where
  start_tic : Int
  spawn_interval : Int
  spawn_count : Int
  foe_speed : ℚ
  trajectory : Trajectory

/-- Struct `Level`. -/
structure Level where
  trajectories : List Trajectory
  waves : List Wave

/-- A `const Wave *` into a level: the address (the index of the wave in
`Level::waves`) together with the immutable object stored there. -/
structure WavePtr where
  addr : Nat
  obj : Wave

/-- Struct `Player`. -/
structure Player where
  position : Vec2

/-- Struct `Foe`. -/
structure Foe where
  speed : ℚ
  trajectory : Trajectory
  position : Vec2
  trajectory_position : ℚ

/-- Constructor `Foe::Foe(const Wave *wave)`. -/
def Foe.new (wave : WavePtr) : Foe :=
  { speed := wave.obj.foe_speed
    trajectory := wave.obj.trajectory
    position := wave.obj.trajectory.point_at 0
    trajectory_position := 0 }

/-- Struct `World::ActiveWave` (without the debug geometry). -/
structure ActiveWave where
  wave : WavePtr

/-- The simulation state of `class World`, together with the global
`g_dpad_state` that `advance_player` reads. -/
structure World where
  cur_level_ : Option Level
  active_waves_ : List ActiveWave
  foes_ : List Foe
  player_ : Player
  timestamp_ : ℚ
  cur_tic_ : Int
  g_dpad_state : Nat

/-- The `DPad_*` enumerators. -/
def DPad_Up : Nat := 1

def DPad_Down : Nat := 2

def DPad_Left : Nat := 4

def DPad_Right : Nat := 8

def TicsPerSecond : ℚ := 60

/-- Constant `MillisecondsPerTic` of `World::advance`. -/
def MillisecondsPerTic : ℚ := 1000 / TicsPerSecond

/-! ## Wave pass (`World::advance_waves`, lines 346-376) -/

/-- First loop of `advance_waves`: every wave of the level whose `start_tic` is
the current tick is appended to the active waves, in level order. -/
def admit_waves (cur_tic : Int) (waves : List Wave) (active : List ActiveWave) :
    List ActiveWave :=
  active ++ (waves.enum.filter (fun p => p.2.start_tic == cur_tic)).map
    (fun p => ActiveWave.mk ⟨p.1, p.2⟩)

/-- The test `wave_tic == wave->spawn_interval * (wave->spawn_count - 1)` of
`advance_waves`: the subtraction and the product are `int` operations. -/
def last_spawn_test (wave_tic : Int) (wave : Wave) : Except Fault Bool :=
  match int_value (wave.spawn_count - 1) with
  | .error e => .error e
  | .ok count1 =>
    match int_value (wave.spawn_interval * count1) with
    | .error e => .error e
    | .ok last => .ok (wave_tic == last)

/-- Second loop of `advance_waves`, run over the active waves from the iterator
position onwards. Returns the waves that are kept and the foes. The
subtraction `cur_tic_ - wave->start_tic` is an `int` operation; the `%` of the
source divides by `spawn_interval`, which is undefined for a zero divisor and
for `INT_MIN % -1`; the last-spawn test is evaluated only when a foe is
spawned. -/
def spawn_loop (cur_tic : Int) : List ActiveWave → List Foe →
    Except Fault (List ActiveWave × List Foe)
  | [], foes => .ok ([], foes)
  | it :: rest, foes =>
    let wave := it.wave
    match int_value (cur_tic - wave.obj.start_tic) with
    | .error e => .error e
    | .ok wave_tic =>
      if wave.obj.spawn_interval = 0 ∨ (wave_tic = INT_MIN ∧ wave.obj.spawn_interval = -1) then
        .error Fault.undefined
      else
        let spawn : Bool := Int.tmod wave_tic wave.obj.spawn_interval == 0
        let foes1 := if spawn then foes ++ [Foe.new wave] else foes
        match (if spawn then last_spawn_test wave_tic wave.obj else .ok false) with
        | .error e => .error e
        | .ok erase =>
          match spawn_loop cur_tic rest foes1 with
          | .error e => .error e
          | .ok (kept, foes2) => .ok (if erase then kept else it :: kept, foes2)

/-- Method `World::advance_waves`. Dereferencing a null `cur_level_` is undefined. -/
def advance_waves (w : World) : Except Fault World :=
  match w.cur_level_ with
  | none => .error Fault.undefined
  | some level =>
    match spawn_loop w.cur_tic_ (admit_waves w.cur_tic_ level.waves w.active_waves_)
        w.foes_ with
    | .error e => .error e
    | .ok (kept, foes) => .ok { w with active_waves_ := kept, foes_ := foes }

/-! ## Foe and player passes (lines 378-409) -/

/-- The loop of `World::advance_foes` over the foes from the iterator onwards. -/
def advance_foes_loop : List Foe → List Foe
  | [] => []
  | foe :: rest =>
    let trajectory_position := foe.trajectory_position + foe.speed
    if trajectory_position > foe.trajectory.length then advance_foes_loop rest
    else
      { foe with
        trajectory_position := trajectory_position
        position := foe.trajectory.point_at trajectory_position } ::
        advance_foes_loop rest

/-- Method `World::advance_foes`. -/
def advance_foes (w : World) : World :=
  { w with foes_ := advance_foes_loop w.foes_ }

/-- Method `World::advance_player`. -/
def advance_player (w : World) : World :=
  let speed : ℚ := 2
  let p0 := w.player_.position
  let p1 := if w.g_dpad_state &&& DPad_Up ≠ 0 then p0 + (0, speed) else p0
  let p2 := if w.g_dpad_state &&& DPad_Down ≠ 0 then p1 + (0, -speed) else p1
  let p3 := if w.g_dpad_state &&& DPad_Left ≠ 0 then p2 + (-speed, 0) else p2
  let p4 := if w.g_dpad_state &&& DPad_Right ≠ 0 then p3 + (speed, 0) else p3
  { w with player_ := { position := p4 } }

/-- Method `World::advance_one_tic`. -/
def advance_one_tic (w : World) : Except Fault World :=
  match advance_waves w with
  | .error e => .error e
  | .ok w1 => .ok (advance_player (advance_foes w1))

/-! ## Level set-up and the tick loop (lines 233-266) -/

/-- The assignments of `initialize_level` before its wave pass. The statement
`int cur_tic_ = 0;` declares a local variable, so the member `cur_tic_` keeps
its value. -/
def level_entry (level : Level) (w : World) : World :=
  { w with cur_level_ := some level, foes_ := [], active_waves_ := [], timestamp_ := 0 }

/-- Method `World::initialize_level`. -/
def initialize_level (level : Level) (w : World) : Except Fault World :=
  advance_waves (level_entry level w)

/-- The two statements of the `while` body of `advance` that precede
`advance_one_tic`; `++cur_tic_` is an `int` operation. -/
def tic_entry (w : World) : Except Fault World :=
  match int_value (w.cur_tic_ + 1) with
  | .error e => .error e
  | .ok tic =>
    .ok { w with timestamp_ := w.timestamp_ - MillisecondsPerTic, cur_tic_ := tic }

/-- One iteration of the `while` body of `advance`. -/
def advance_step (w : World) : Except Fault World :=
  match tic_entry w with
  | .error e => .error e
  | .ok w1 => advance_one_tic w1

/-- The `while` loop of `advance`, with a bound on the number of iterations. -/
def advance_loop : Nat → World → Except Fault World
  | 0, w => .ok w
  | fuel + 1, w =>
    if w.timestamp_ > MillisecondsPerTic then
      match advance_step w with
      | .error e => .error e
      | .ok w1 => advance_loop fuel w1
    else .ok w

/-- An iteration bound for the loop of `advance` started with accumulator `t`:
each iteration takes `MillisecondsPerTic` off the accumulator. -/
def advance_fuel (t : ℚ) : Nat := Nat.ceil (t / MillisecondsPerTic)

/-- Method `World::advance`. -/
def advance (dt : ℚ) (w : World) : Except Fault World :=
  let w1 := { w with timestamp_ := w.timestamp_ + dt }
  advance_loop (advance_fuel w1.timestamp_) w1

/-! ## Sprites and collision masks (lines 84-173) -/

/-- The pixel formats of `Pixmap::PixelType`. The header `pixmap.h` is not among
the sources; `initialize_mask` only distinguishes `RGBAlpha` from the rest, so
every other format is represented by its number of channels. -/
inductive PixelType where
  | RGBAlpha
  | other (channels : Nat)
deriving DecidableEq, Repr

/-- The part of `Pixmap` (declared in `pixmap.h`, not among the sources) that
`initialize_mask` reads: the row width, the pixel format, and the pixel data
seen through the `const uint32_t *` cast, one word per pixel. -/
structure Pixmap where
  width : Int
  type : PixelType
  pixels : List Nat

/-- The part of `Tile` (declared in `tilesheet.h`, not among the sources) that
`Sprite` reads: `position`, `size`, and the pixmap reached through
`texture->pixmap()`. Components are `(x, y)`. -/
structure Tile where
  position : Int × Int
  size : Int × Int
  pixmap : Pixmap

/-- Struct `Sprite`. -/
structure Sprite where
  tile : Tile
  masks_ : List Nat

/-- The element `pixels[index]` as a `uint32_t`; reading outside the pixel data
is undefined. -/
def read_pixel (pm : Pixmap) (index : Int) : Except Fault Nat :=
  if index < 0 then .error Fault.undefined
  else
    match pm.pixels[index.toNat]? with
    | none => .error Fault.undefined
    | some pixel => .ok (pixel % 2 ^ 32)

/-- The test `(pixel >> 24) > 0x7f` of `initialize_mask`. -/
def alpha_set (pixel : Nat) : Bool := decide (pixel >>> 24 > 0x7f)

/-- The inner loop of `initialize_mask` for row `i`: `todo` iterations starting
at column `j`, on the mask accumulated so far. -/
def mask_row_loop (tile : Tile) (i : Nat) : Nat → Nat → Nat → Except Fault Nat
  | 0, _, mask => .ok mask
  | todo + 1, j, mask =>
    match read_pixel tile.pixmap
        (((i : Int) + tile.position.2) * tile.pixmap.width + (j : Int) + tile.position.1) with
    | .error e => .error e
    | .ok pixel =>
      let mask1 := (mask <<< 1) % 2 ^ 64
      let mask2 := if alpha_set pixel then mask1 ||| 1 else mask1
      mask_row_loop tile i todo (j + 1) mask2

/-- The outer loop of `initialize_mask`: `todo` iterations starting at row `i`;
returns the masks pushed by these iterations. -/
def mask_rows_loop (tile : Tile) : Nat → Nat → Except Fault (List Nat)
  | 0, _ => .ok []
  | todo + 1, i =>
    match mask_row_loop tile i tile.size.1.toNat 0 0 with
    | .error e => .error e
    | .ok mask =>
      match mask_rows_loop tile todo (i + 1) with
      | .error e => .error e
      | .ok masks => .ok (mask :: masks)

/-- Method `Sprite::initialize_mask`, returning the contents of `masks_`. The
call `masks_.reserve(tile->size.y)` converts its argument to `size_t`; for a
negative height the request exceeds `max_size()` and `reserve` throws
`std::length_error`. -/
def initialize_mask (tile : Tile) : Except Fault (List Nat) :=
  if tile.pixmap.type ≠ PixelType.RGBAlpha then .error Fault.assertion
  else if tile.size.2 < 0 then .error Fault.exception
  else mask_rows_loop tile tile.size.2.toNat 0

/-- Constructor `Sprite::Sprite(const Tile *tile)`. -/
def Sprite.new (tile : Tile) : Except Fault Sprite :=
  match initialize_mask tile with
  | .error e => .error e
  | .ok masks => .ok { tile := tile, masks_ := masks }

/-- The shift `x >> n` on `uint64_t` with an `int` count; undefined for a count outside
`0 .. 63`. -/
def shr64 (x : Nat) (n : Int) : Except Fault Nat :=
  if 0 ≤ n ∧ n < 64 then .ok (x >>> n.toNat) else .error Fault.undefined

/-- The shift `x << n` on `uint64_t` with an `int` count; undefined for a count outside
`0 .. 63`. -/
def shl64 (x : Nat) (n : Int) : Except Fault Nat :=
  if 0 ≤ n ∧ n < 64 then .ok ((x <<< n.toNat) % 2 ^ 64) else .error Fault.undefined

/-- The element `masks[index]`; reading outside the vector is undefined. -/
def read_mask (masks : List Nat) (index : Int) : Except Fault Nat :=
  if index < 0 then .error Fault.undefined
  else
    match masks[index.toNat]? with
    | none => .error Fault.undefined
    | some mask => .ok mask

/-- The body of the row loop of `collides_with` for one `row`: whether the loop
returns `true` at this row. -/
def collides_at_row (self other : Sprite) (row_offset col_offset : Int) (row : Nat) :
    Except Fault Bool :=
  let other_rows := other.tile.size.2
  let other_row := (row : Int) + row_offset
  if other_row ≥ 0 ∧ other_row < other_rows then
    match read_mask self.masks_ row with
    | .error e => .error e
    | .ok mask =>
      match read_mask other.masks_ other_row with
      | .error e => .error e
      | .ok other_mask =>
        if col_offset > 0 then
          match shr64 other_mask col_offset with
          | .error e => .error e
          | .ok shifted => .ok (decide (mask &&& shifted ≠ 0))
        else
          match shl64 other_mask (-col_offset) with
          | .error e => .error e
          | .ok shifted => .ok (decide (mask &&& shifted ≠ 0))
  else .ok false

/-- The row loop of `collides_with`: `todo` iterations starting at `row`. -/
def collides_loop (self other : Sprite) (row_offset col_offset : Int) :
    Nat → Nat → Except Fault Bool
  | 0, _ => .ok false
  | todo + 1, row =>
    match collides_at_row self other row_offset col_offset row with
    | .error e => .error e
    | .ok true => .ok true
    | .ok false => collides_loop self other row_offset col_offset todo (row + 1)

/-- Method `Sprite::collides_with`, on the offset after the two `static_cast<int>`:
`pos = (col_offset, row_offset)`. -/
def collides_with (self other : Sprite) (pos : Int × Int) : Except Fault Bool :=
  let cols := self.tile.size.1
  let rows := self.tile.size.2
  let other_cols := other.tile.size.1
  let row_offset := pos.2
  let col_offset := pos.1
  if col_offset ≥ cols ∨ col_offset < -other_cols then .ok false
  else if (self.masks_.length : Int) ≠ rows then .error Fault.assertion
  else collides_loop self other row_offset col_offset rows.toNat 0

/-- Whether the pixel in column `c`, row `r` of the tile can be read and has an
alpha byte above `0x7f`. -/
def Tile.solid (tile : Tile) (c r : Nat) : Bool :=
  match read_pixel tile.pixmap
      (((r : Int) + tile.position.2) * tile.pixmap.width + (c : Int) + tile.position.1) with
  | .error _ => false
  | .ok pixel => alpha_set pixel

/-! ## Runs of the simulation and observers of the wave pass -/

/-- Whether the body of the second loop of `advance_waves` at tick `cur_tic`
executes `foes_.emplace_back(wave)` for this active wave. -/
def wave_spawns (cur_tic : Int) (a : ActiveWave) : Bool :=
  Int.tmod (cur_tic - a.wave.obj.start_tic) a.wave.obj.spawn_interval == 0

/-- Whether the body of the second loop of `advance_waves` at tick `cur_tic`
sets `erase` for this active wave. -/
def wave_erased (cur_tic : Int) (a : ActiveWave) : Bool :=
  wave_spawns cur_tic a &&
    cur_tic - a.wave.obj.start_tic ==
      a.wave.obj.spawn_interval * (a.wave.obj.spawn_count - 1)

/-- The active waves, in order, for which a wave pass at tick `cur_tic` over
`active` spawns a foe. -/
def spawning_waves (cur_tic : Int) (active : List ActiveWave) : List ActiveWave :=
  active.filter (wave_spawns cur_tic)

/-- The world after tick `t` of a run that sets up `level` with
`initialize_level` (tick 0) and then executes the body of the loop of `advance`
once per tick. -/
def world_at (level : Level) (w0 : World) : Nat → Except Fault World
  | 0 => initialize_level level w0
  | t + 1 =>
    match world_at level w0 t with
    | .error e => .error e
    | .ok w => advance_step w

/-- The world on which the wave pass of tick `t` of that run is executed. -/
def pass_input (level : Level) (w0 : World) : Nat → Except Fault World
  | 0 => .ok (level_entry level w0)
  | t + 1 =>
    match world_at level w0 t with
    | .error e => .error e
    | .ok w => tic_entry w

/-- The number of foes that the wave pass of tick `t` of that run spawns from
the wave at address `i`. -/
def spawned_in_pass (level : Level) (w0 : World) (i : Nat) (t : Nat) : Nat :=
  match pass_input level w0 t with
  | .error _ => 0
  | .ok pre =>
    List.countP (fun a => a.wave.addr == i)
      (spawning_waves pre.cur_tic_
        (admit_waves pre.cur_tic_ level.waves pre.active_waves_))

/-! ## Auxiliary predicates and sample data -/

/-- The `int` operations that the wave pass performs on the data of a wave are
defined: the spawn interval is not zero, and `spawn_count - 1` and
`spawn_interval * (spawn_count - 1)` are representable. -/
def Wave.defined (u : Wave) : Prop :=
  u.spawn_interval ≠ 0 ∧
    (INT_MIN ≤ u.spawn_count - 1 ∧ u.spawn_count - 1 ≤ INT_MAX) ∧
    (INT_MIN ≤ u.spawn_interval * (u.spawn_count - 1) ∧
      u.spawn_interval * (u.spawn_count - 1) ≤ INT_MAX)

/-- A wave pointer is valid for a level when its address holds its object. -/
def points_into (level : Level) (a : ActiveWave) : Prop :=
  level.waves[a.wave.addr]? = some a.wave.obj

/-- A trajectory along the x axis, of length 100. -/
def demo_trajectory : Trajectory := { length := 100, point_at := fun d => (d, 0) }

/-- The wave of the end-to-end scenario: three foes, ten ticks apart, from tick 0. -/
def demo_wave : Wave :=
  { start_tic := 0, spawn_interval := 10, spawn_count := 3, foe_speed := 5,
    trajectory := demo_trajectory }

/-- A level with the single wave `demo_wave`. -/
def demo_level : Level := { trajectories := [demo_trajectory], waves := [demo_wave] }

/-- A wave with a zero spawn interval. -/
def zero_interval_wave : Wave :=
  { start_tic := 0, spawn_interval := 0, spawn_count := 1, foe_speed := 5,
    trajectory := demo_trajectory }

/-- A wave that spawns one foe at tick 5. -/
def late_wave : Wave :=
  { start_tic := 5, spawn_interval := 1, spawn_count := 1, foe_speed := 5,
    trajectory := demo_trajectory }

/-- A level holding `zero_interval_wave` and `late_wave`. -/
def zero_interval_level : Level :=
  { trajectories := [demo_trajectory], waves := [zero_interval_wave, late_wave] }

/-- A wave whose last spawn is due `65536 * 65536` ticks after its first. -/
def long_wave : Wave :=
  { start_tic := 0, spawn_interval := 65536, spawn_count := 65537, foe_speed := 5,
    trajectory := demo_trajectory }

/-- A level with the single wave `long_wave`. -/
def long_wave_level : Level := { trajectories := [demo_trajectory], waves := [long_wave] }

/-- A freshly constructed world: no level, tick counter 0. -/
def fresh_world : World :=
  { cur_level_ := none, active_waves_ := [], foes_ := [], player_ := { position := (200, 300) },
    timestamp_ := 0, cur_tic_ := 0, g_dpad_state := 0 }

/-- The world with its time accumulator replaced. -/
def set_timestamp (x : ℚ) (w : World) : World := { w with timestamp_ := x }

/-- Repeated calls: `n` calls of `advance(dt)` in sequence. -/
def advance_n : Nat → ℚ → World → Except Fault World
  | 0, _, w => .ok w
  | n + 1, dt, w => advance dt w >>= advance_n n dt

/-- A world on which the loop body of `advance` is about to run: `demo_level` is
set, the collections are empty. -/
def demo_world : World := level_entry demo_level fresh_world

/-- A world left by earlier simulation: tick counter 5, accumulator 3, one foe
and one active wave. -/
def stale_world : World :=
  { cur_level_ := some demo_level
    active_waves_ := [ActiveWave.mk ⟨0, demo_wave⟩]
    foes_ := [Foe.new ⟨0, demo_wave⟩]
    player_ := { position := (200, 300) }
    timestamp_ := 3
    cur_tic_ := 5
    g_dpad_state := 0 }

/-- The foe spawned from wave `p` after travelling for `n` ticks. -/
def foe_after (p : WavePtr) (n : Nat) : Foe :=
  { speed := p.obj.foe_speed
    trajectory := p.obj.trajectory
    position := p.obj.trajectory.point_at (n * p.obj.foe_speed)
    trajectory_position := n * p.obj.foe_speed }

/-- The world `demo_world` with a single foe, just spawned from `demo_wave`
(speed 5, trajectory of length 100). -/
def one_foe_world : World := { demo_world with foes_ := [Foe.new ⟨0, demo_wave⟩] }

/-- Every pixel of the tile lies inside the pixel data of its pixmap. -/
def Tile.in_bounds (tile : Tile) : Prop :=
  ∀ r c : Nat, r < tile.size.2.toNat → c < tile.size.1.toNat →
    0 ≤ ((r : Int) + tile.position.2) * tile.pixmap.width + (c : Int) + tile.position.1 ∧
    (((r : Int) + tile.position.2) * tile.pixmap.width + (c : Int) + tile.position.1).toNat <
      tile.pixmap.pixels.length

/-- A pixmap of one solid pixel. -/
def one_px_pixmap : Pixmap :=
  { width := 1, type := PixelType.RGBAlpha, pixels := [0xFF000000] }

/-- The tile covering `one_px_pixmap`: width 1, height 1. -/
def one_px_tile : Tile := { position := (0, 0), size := (1, 1), pixmap := one_px_pixmap }

/-- The sprite that construction yields for `one_px_tile`. -/
def one_px_sprite : Sprite := { tile := one_px_tile, masks_ := [1] }

/-- A pixmap of one row: a solid pixel followed by a transparent one. -/
def two_px_pixmap : Pixmap :=
  { width := 2, type := PixelType.RGBAlpha, pixels := [0xFF000000, 0x00000000] }

/-- The tile covering `two_px_pixmap`: width 2, height 1. -/
def two_px_tile : Tile := { position := (0, 0), size := (2, 1), pixmap := two_px_pixmap }

/-- The sprite that construction yields for `two_px_tile`. -/
def two_px_sprite : Sprite := { tile := two_px_tile, masks_ := [2] }

/-- A pixmap of one row of 65 pixels: a solid pixel followed by 64 transparent
ones. -/
def wide_pixmap : Pixmap :=
  { width := 65, type := PixelType.RGBAlpha, pixels := 0xFF000000 :: List.replicate 64 0 }

/-- The tile covering `wide_pixmap`: width 65, height 1. -/
def wide_tile : Tile := { position := (0, 0), size := (65, 1), pixmap := wide_pixmap }

/-- A pixmap of one row of 64 solid pixels. -/
def full64_pixmap : Pixmap :=
  { width := 64, type := PixelType.RGBAlpha, pixels := List.replicate 64 0xFF000000 }

/-- The tile covering `full64_pixmap`: width 64, height 1. -/
def full64_tile : Tile := { position := (0, 0), size := (64, 1), pixmap := full64_pixmap }

/-- The sprite that construction yields for `full64_tile`: all 64 bits of its
only mask row are set. -/
def full64_sprite : Sprite := { tile := full64_tile, masks_ := [2 ^ 64 - 1] }

/-- The naive pixel test, written from the words of the claim and not from the
code: some solid pixel `(c, r)` of this tile and some solid pixel `(c1, r1)` of
the other tile satisfy `c = c1 + dx` and `r1 = r + dy`. -/
def naive_pixel_test (this other : Tile) (dx dy : Int) : Bool :=
  (List.range this.size.2.toNat).any fun r =>
    (List.range this.size.1.toNat).any fun c =>
      (List.range other.size.2.toNat).any fun r1 =>
        (List.range other.size.1.toNat).any fun c1 =>
          this.solid c r && other.solid c1 r1 &&
            decide ((c : Int) = (c1 : Int) + dx) && decide ((r1 : Int) = (r : Int) + dy)

/-! # Properties -/

/-! ## The wave pass as two filters -/

theorem int_value_ok (x : Int) (h1 : INT_MIN ≤ x) (h2 : x ≤ INT_MAX) :
    int_value x = .ok x := by
  simp only [int_value, if_pos (And.intro h1 h2)]

theorem last_spawn_test_ok (wave_tic : Int) (u : Wave) (h : u.defined) :
    last_spawn_test wave_tic u =
      .ok (wave_tic == u.spawn_interval * (u.spawn_count - 1)) := by
  obtain ⟨_, ⟨h1, h2⟩, h3, h4⟩ := h
  simp only [last_spawn_test, int_value_ok _ h1 h2, int_value_ok _ h3 h4]

theorem spawn_loop_eq (cur_tic : Int) (active : List ActiveWave) (foes : List Foe)
    (h : ∀ a ∈ active, a.wave.obj.defined ∧ 0 ≤ cur_tic - a.wave.obj.start_tic ∧
      cur_tic - a.wave.obj.start_tic ≤ INT_MAX) :
    spawn_loop cur_tic active foes =
      .ok (active.filter (fun a => !wave_erased cur_tic a),
        foes ++ (spawning_waves cur_tic active).map (fun a => Foe.new a.wave)) := by
  induction active generalizing foes with
  | nil => simp [spawn_loop, spawning_waves]
  | cons it rest ih =>
    obtain ⟨hdef, ht1, ht2⟩ := h it (List.mem_cons_self _ _)
    have h0 : it.wave.obj.spawn_interval ≠ 0 := hdef.1
    have ih1 := fun foes => ih foes (fun a ha => h a (List.mem_cons_of_mem _ ha))
    have hmin : INT_MIN ≤ cur_tic - it.wave.obj.start_tic :=
      le_trans (by decide : INT_MIN ≤ 0) ht1
    have hv := int_value_ok (cur_tic - it.wave.obj.start_tic) hmin ht2
    have hdiv : ¬ (it.wave.obj.spawn_interval = 0 ∨
        (cur_tic - it.wave.obj.start_tic = INT_MIN ∧ it.wave.obj.spawn_interval = -1)) := by
      rintro (h1 | ⟨h1, _⟩)
      · exact h0 h1
      · rw [h1] at ht1
        exact absurd ht1 (by decide)
    have hlast := last_spawn_test_ok (cur_tic - it.wave.obj.start_tic) it.wave.obj hdef
    simp only [spawn_loop, hv, if_neg hdiv]
    by_cases hs : Int.tmod (cur_tic - it.wave.obj.start_tic) it.wave.obj.spawn_interval = 0
    · have hsb : (Int.tmod (cur_tic - it.wave.obj.start_tic) it.wave.obj.spawn_interval == 0) =
          true := by simpa using hs
      simp only [hsb, if_true, hlast, ih1]
      by_cases he : cur_tic - it.wave.obj.start_tic =
          it.wave.obj.spawn_interval * (it.wave.obj.spawn_count - 1)
      · have heb : (cur_tic - it.wave.obj.start_tic ==
            it.wave.obj.spawn_interval * (it.wave.obj.spawn_count - 1)) = true := by
          simpa using he
        simp [heb, wave_erased, wave_spawns, spawning_waves, hsb, List.filter_cons]
      · have heb : (cur_tic - it.wave.obj.start_tic ==
            it.wave.obj.spawn_interval * (it.wave.obj.spawn_count - 1)) = false := by
          simpa using he
        simp [heb, wave_erased, wave_spawns, spawning_waves, hsb, List.filter_cons]
    · have hsb : (Int.tmod (cur_tic - it.wave.obj.start_tic) it.wave.obj.spawn_interval == 0) =
          false := by simpa using hs
      simp only [hsb, ih1]
      simp [wave_erased, wave_spawns, spawning_waves, hsb, List.filter_cons]

theorem countP_enumFrom_addr (q : Wave → Bool) (i : Nat) (l : List Wave) (n : Nat) :
    List.countP (fun p : Nat × Wave => p.1 == i && q p.2) (l.enumFrom n) =
      if n ≤ i then
        (match l[i - n]? with
          | some x => if q x = true then 1 else 0
          | none => 0)
      else 0 := by
  induction l generalizing n with
  | nil => simp
  | cons x l ih =>
    rw [List.enumFrom_cons, List.countP_cons, ih]
    by_cases h1 : n = i
    · subst h1
      simp
    · by_cases h2 : n < i
      · have h3 : i - n = (i - (n + 1)) + 1 := by omega
        have h4 : n + 1 ≤ i := h2
        have h5 : n ≤ i := by omega
        simp [h3, h4, h5, h1]
      · have h4 : ¬ (n + 1 ≤ i) := by omega
        have h5 : ¬ (n ≤ i) := by omega
        simp [h4, h5, h1]

/-- The active waves appended by the first loop of `advance_waves`. -/
theorem admit_waves_eq (t : Int) (waves : List Wave) (active : List ActiveWave) :
    admit_waves t waves active =
      active ++ (waves.enum.filter (fun p => p.2.start_tic == t)).map
        (fun p => ActiveWave.mk ⟨p.1, p.2⟩) := rfl

theorem countP_admitted (t : Int) (waves : List Wave) (i : Nat) (wv : Wave)
    (hw : waves[i]? = some wv) :
    List.countP (fun a : ActiveWave => a.wave.addr == i)
        ((waves.enum.filter (fun p => p.2.start_tic == t)).map
          (fun p => ActiveWave.mk ⟨p.1, p.2⟩)) =
      if wv.start_tic = t then 1 else 0 := by
  rw [List.countP_map, List.countP_filter]
  have h := countP_enumFrom_addr (fun x => x.start_tic == t) i waves 0
  simp only [Nat.zero_le, if_true, Nat.sub_zero, hw] at h
  simpa [List.enum, Function.comp] using h

theorem points_into_admitted (t : Int) (level : Level) (a : ActiveWave)
    (ha : a ∈ (level.waves.enum.filter (fun p => p.2.start_tic == t)).map
          (fun p => ActiveWave.mk ⟨p.1, p.2⟩)) :
    points_into level a := by
  simp only [List.mem_map, List.mem_filter] at ha
  obtain ⟨p, ⟨hp, _⟩, rfl⟩ := ha
  obtain ⟨n, x⟩ := p
  have h := List.mem_enum hp
  simp only [points_into]
  rw [List.getElem?_eq_getElem h.1]
  exact congrArg some h.2.symm

theorem start_tic_admitted (t : Int) (level : Level) (a : ActiveWave)
    (ha : a ∈ (level.waves.enum.filter (fun p => p.2.start_tic == t)).map
          (fun p => ActiveWave.mk ⟨p.1, p.2⟩)) :
    a.wave.obj.start_tic = t := by
  simp only [List.mem_map, List.mem_filter] at ha
  obtain ⟨p, ⟨_, hp⟩, rfl⟩ := ha
  simpa using hp

theorem countP_filter_addr (i : Nat) (f : ActiveWave → Bool) (b : Bool)
    (l : List ActiveWave) (h : ∀ a ∈ l, a.wave.addr = i → f a = b) :
    List.countP (fun a : ActiveWave => a.wave.addr == i) (l.filter f) =
      if b = true then List.countP (fun a : ActiveWave => a.wave.addr == i) l else 0 := by
  rw [List.countP_filter]
  induction l with
  | nil => simp
  | cons x l ih =>
    have ih1 := ih (fun a ha => h a (List.mem_cons_of_mem _ ha))
    rw [List.countP_cons, List.countP_cons, ih1]
    by_cases hx : x.wave.addr = i
    · have hf := h x (List.mem_cons_self _ _) hx
      cases b <;> simp [hx, hf]
    · cases b <;> simp [hx]

/-- One wave pass at a representable tick, seen from the wave at address `i`:
the pass does not fail on a level whose waves are all `defined`, appends one
foe per spawning wave, and the wave at `i` is spawning and kept as its own
schedule says. -/
theorem wave_pass_spec (level : Level) (i : Nat) (wv : Wave)
    (hw : level.waves[i]? = some wv)
    (hvalid : ∀ u ∈ level.waves, u.defined)
    (hK : 0 < wv.spawn_interval) (hN : 1 ≤ wv.spawn_count)
    (t : Int) (ht0 : 0 ≤ t) (htmax : t ≤ INT_MAX) (pre : World)
    (hlevel : pre.cur_level_ = some level) (htic : pre.cur_tic_ = t)
    (hptr : ∀ a ∈ pre.active_waves_, points_into level a)
    (hstart : ∀ a ∈ pre.active_waves_,
      0 ≤ a.wave.obj.start_tic ∧ a.wave.obj.start_tic ≤ t)
    (hcount : List.countP (fun a : ActiveWave => a.wave.addr == i) pre.active_waves_ =
      if wv.start_tic < t ∧ t ≤ wv.start_tic + wv.spawn_interval * (wv.spawn_count - 1)
      then 1 else 0) :
    ∃ post, advance_waves pre = .ok post ∧
      post.foes_ = pre.foes_ ++
        (spawning_waves t (admit_waves t level.waves pre.active_waves_)).map
          (fun a => Foe.new a.wave) ∧
      List.countP (fun a : ActiveWave => a.wave.addr == i)
          (spawning_waves t (admit_waves t level.waves pre.active_waves_)) =
        (if wv.start_tic ≤ t ∧
            t ≤ wv.start_tic + wv.spawn_interval * (wv.spawn_count - 1) ∧
            (t - wv.start_tic) % wv.spawn_interval = 0 then 1 else 0) ∧
      post.cur_level_ = some level ∧ post.cur_tic_ = t ∧
      post.timestamp_ = pre.timestamp_ ∧ post.player_ = pre.player_ ∧
      post.g_dpad_state = pre.g_dpad_state ∧
      (∀ a ∈ post.active_waves_, points_into level a) ∧
      List.countP (fun a : ActiveWave => a.wave.addr == i) post.active_waves_ =
        (if wv.start_tic ≤ t ∧
            t < wv.start_tic + wv.spawn_interval * (wv.spawn_count - 1) then 1 else 0) ∧
      (∀ a ∈ post.active_waves_,
        0 ≤ a.wave.obj.start_tic ∧ a.wave.obj.start_tic ≤ t) := by
  have hP : 0 ≤ wv.spawn_interval * (wv.spawn_count - 1) :=
    mul_nonneg (le_of_lt hK) (by omega)
  have hPdvd : wv.spawn_interval ∣ wv.spawn_interval * (wv.spawn_count - 1) :=
    Dvd.intro _ rfl
  generalize hPdef : wv.spawn_interval * (wv.spawn_count - 1) = P at hP hPdvd hcount ⊢
  have hAvalid : ∀ a ∈ admit_waves t level.waves pre.active_waves_, points_into level a := by
    intro a ha
    rw [admit_waves_eq, List.mem_append] at ha
    rcases ha with ha | ha
    · exact hptr a ha
    · exact points_into_admitted t level a ha
  have hAstart : ∀ a ∈ admit_waves t level.waves pre.active_waves_,
      0 ≤ a.wave.obj.start_tic ∧ a.wave.obj.start_tic ≤ t := by
    intro a ha
    rw [admit_waves_eq, List.mem_append] at ha
    rcases ha with ha | ha
    · exact hstart a ha
    · rw [start_tic_admitted t level a ha]
      exact ⟨ht0, le_rfl⟩
  have hAnz : ∀ a ∈ admit_waves t level.waves pre.active_waves_,
      a.wave.obj.defined ∧ 0 ≤ t - a.wave.obj.start_tic ∧
        t - a.wave.obj.start_tic ≤ INT_MAX := by
    intro a ha
    have h1 := hAvalid a ha
    have h2 := hAstart a ha
    exact ⟨hvalid _ (List.mem_iff_getElem?.mpr ⟨_, h1⟩), by omega, by omega⟩
  have hAobj : ∀ a ∈ admit_waves t level.waves pre.active_waves_,
      a.wave.addr = i → a.wave.obj = wv := by
    intro a ha hi
    have h1 := hAvalid a ha
    rw [points_into, hi, hw] at h1
    exact (Option.some.inj h1).symm
  have hAcount : List.countP (fun a : ActiveWave => a.wave.addr == i)
      (admit_waves t level.waves pre.active_waves_) =
      if wv.start_tic ≤ t ∧ t ≤ wv.start_tic + P then 1 else 0 := by
    rw [admit_waves_eq, List.countP_append, hcount, countP_admitted t level.waves i wv hw]
    by_cases h1 : wv.start_tic = t
    · have h2 : ¬ (wv.start_tic < t ∧ t ≤ wv.start_tic + P) := by omega
      have h3 : wv.start_tic ≤ t ∧ t ≤ wv.start_tic + P := by omega
      rw [if_neg h2, if_pos h1, if_pos h3]
    · by_cases h2 : wv.start_tic < t ∧ t ≤ wv.start_tic + P
      · have h3 : wv.start_tic ≤ t ∧ t ≤ wv.start_tic + P := by omega
        rw [if_pos h2, if_neg h1, if_pos h3]
      · have h3 : ¬ (wv.start_tic ≤ t ∧ t ≤ wv.start_tic + P) := by omega
        rw [if_neg h2, if_neg h1, if_neg h3]
  have hspawn := countP_filter_addr i (wave_spawns t)
    (Int.tmod (t - wv.start_tic) wv.spawn_interval == 0)
    (admit_waves t level.waves pre.active_waves_)
    (fun a ha hi => by simp [wave_spawns, hAobj a ha hi])
  have hkeep := countP_filter_addr i (fun a => !wave_erased t a)
    (!(Int.tmod (t - wv.start_tic) wv.spawn_interval == 0 && t - wv.start_tic == P))
    (admit_waves t level.waves pre.active_waves_)
    (fun a ha hi => by simp [wave_erased, wave_spawns, hAobj a ha hi, hPdef])
  have hloop := spawn_loop_eq t (admit_waves t level.waves pre.active_waves_) pre.foes_ hAnz
  refine ⟨{ pre with
      active_waves_ := (admit_waves t level.waves pre.active_waves_).filter
        (fun a => !wave_erased t a)
      foes_ := pre.foes_ ++
        (spawning_waves t (admit_waves t level.waves pre.active_waves_)).map
          (fun a => Foe.new a.wave) }, ?_, rfl, ?_, hlevel, htic, rfl, rfl, rfl, ?_, ?_, ?_⟩
  · simp only [advance_waves, hlevel, htic, hloop]
  · rw [spawning_waves, hspawn, hAcount]
    by_cases h1 : wv.start_tic ≤ t ∧ t ≤ wv.start_tic + P
    · have h2 : Int.tmod (t - wv.start_tic) wv.spawn_interval =
          (t - wv.start_tic) % wv.spawn_interval :=
        Int.tmod_eq_emod (by omega) (le_of_lt hK)
      rw [h2, if_pos h1]
      by_cases h3 : (t - wv.start_tic) % wv.spawn_interval = 0
      · rw [if_pos (by simpa using h3), if_pos ⟨h1.1, h1.2, h3⟩]
      · rw [if_neg (by simpa using h3), if_neg (fun h => h3 h.2.2)]
    · have h2 : ¬ (wv.start_tic ≤ t ∧ t ≤ wv.start_tic + P ∧
          (t - wv.start_tic) % wv.spawn_interval = 0) := fun h => h1 ⟨h.1, h.2.1⟩
      rw [if_neg h1, if_neg h2]
      split <;> rfl
  · intro a ha
    exact hAvalid a (List.mem_of_mem_filter ha)
  · show List.countP _ (List.filter _ _) = _
    rw [hkeep, hAcount]
    by_cases h1 : t - wv.start_tic = P
    · have h2 : Int.tmod (t - wv.start_tic) wv.spawn_interval = 0 := by
        rw [h1]; exact Int.tmod_eq_zero_of_dvd hPdvd
      have h3 : ¬ (wv.start_tic ≤ t ∧ t < wv.start_tic + P) := by omega
      rw [if_neg h3, if_neg (by rw [h2]; simp [h1])]
    · have h4 : (!(Int.tmod (t - wv.start_tic) wv.spawn_interval == 0 &&
          t - wv.start_tic == P)) = true := by simp [h1]
      rw [if_pos h4]
      by_cases h2 : wv.start_tic ≤ t ∧ t ≤ wv.start_tic + P
      · have h3 : wv.start_tic ≤ t ∧ t < wv.start_tic + P := by omega
        rw [if_pos h2, if_pos h3]
      · have h3 : ¬ (wv.start_tic ≤ t ∧ t < wv.start_tic + P) := by omega
        rw [if_neg h2, if_neg h3]
  · intro a ha
    exact hAstart a (List.mem_of_mem_filter ha)

/-- The ticks `T, T + K, ..., T + (N - 1) K` of a wave's schedule. -/
theorem schedule_iff (T K N : Int) (hK : 0 < K) (t : Int) :
    (T ≤ t ∧ t ≤ T + K * (N - 1) ∧ (t - T) % K = 0) ↔
      ∃ j : Nat, (j : Int) < N ∧ t = T + j * K := by
  constructor
  · rintro ⟨h1, h2, h3⟩
    obtain ⟨c, hc⟩ := Int.dvd_of_emod_eq_zero h3
    have hc0 : 0 ≤ c := by
      by_contra hneg
      have : K * c < 0 := mul_neg_of_pos_of_neg hK (by omega)
      omega
    have hcN : c ≤ N - 1 := by
      have h4 : K * c ≤ K * (N - 1) := by omega
      exact le_of_mul_le_mul_left h4 hK
    refine ⟨c.toNat, ?_, ?_⟩
    · rw [Int.toNat_of_nonneg hc0]; omega
    · rw [Int.toNat_of_nonneg hc0, mul_comm]; omega
  · rintro ⟨j, hj, rfl⟩
    have hj0 : (0 : Int) ≤ j := Int.ofNat_nonneg j
    have h1 : 0 ≤ (j : Int) * K := mul_nonneg hj0 (le_of_lt hK)
    have h2 : (j : Int) * K ≤ K * (N - 1) := by
      rw [mul_comm]
      exact mul_le_mul_of_nonneg_left (by omega) (le_of_lt hK)
    refine ⟨by omega, by omega, ?_⟩
    have h3 : T + (j : Int) * K - T = (j : Int) * K := by ring
    rw [h3]
    exact Int.mul_emod_left _ _

/-- The schedule of a wave has exactly `N` ticks up to any bound past its end. -/
theorem schedule_card (T K N : Int) (hT : 0 ≤ T) (hK : 0 < K) (hN : 1 ≤ N)
    (tmax : Nat) (hmax : T + (N - 1) * K ≤ tmax) :
    (((Finset.range (tmax + 1)).filter (fun s : Nat =>
      T ≤ (s : Int) ∧ (s : Int) ≤ T + K * (N - 1) ∧ ((s : Int) - T) % K = 0)).card : Int) = N := by
  obtain ⟨T0, rfl⟩ := Int.eq_ofNat_of_zero_le hT
  obtain ⟨K0, rfl⟩ := Int.eq_ofNat_of_zero_le (le_of_lt hK)
  obtain ⟨N0, rfl⟩ := Int.eq_ofNat_of_zero_le (by omega : (0 : Int) ≤ N)
  have hK0 : 0 < K0 := by exact_mod_cast hK
  have himg : (Finset.range (tmax + 1)).filter (fun s : Nat =>
      (T0 : Int) ≤ (s : Int) ∧ (s : Int) ≤ T0 + K0 * ((N0 : Int) - 1) ∧
        ((s : Int) - T0) % K0 = 0) =
      (Finset.range N0).image (fun j => T0 + j * K0) := by
    ext s
    simp only [Finset.mem_filter, Finset.mem_range, Finset.mem_image]
    rw [schedule_iff (T0 : Int) (K0 : Int) (N0 : Int) hK (s : Int)]
    constructor
    · rintro ⟨_, j, hj, hs⟩
      exact ⟨j, by exact_mod_cast hj, by exact_mod_cast hs.symm⟩
    · rintro ⟨j, hj, rfl⟩
      have hj1 : (j : Int) < N0 := by exact_mod_cast hj
      have h2 : (j : Int) * K0 ≤ ((N0 : Int) - 1) * K0 :=
        mul_le_mul_of_nonneg_right (by omega) (le_of_lt hK)
      refine ⟨?_, j, hj1, by push_cast; ring⟩
      have h3 : ((T0 + j * K0 : Nat) : Int) ≤ tmax := by push_cast; omega
      have h4 : T0 + j * K0 ≤ tmax := by exact_mod_cast h3
      omega
  rw [himg, Finset.card_image_of_injOn, Finset.card_range]
  intro a _ b _ hab
  simp only at hab
  have : a * K0 = b * K0 := by omega
  exact Nat.eq_of_mul_eq_mul_right hK0 this

theorem tic_entry_ok (w : World) (h1 : INT_MIN ≤ w.cur_tic_ + 1)
    (h2 : w.cur_tic_ + 1 ≤ INT_MAX) :
    ∃ pre, tic_entry w = .ok pre ∧ pre.cur_tic_ = w.cur_tic_ + 1 ∧
      pre.timestamp_ = w.timestamp_ - MillisecondsPerTic ∧
      pre.cur_level_ = w.cur_level_ ∧ pre.active_waves_ = w.active_waves_ ∧
      pre.foes_ = w.foes_ ∧ pre.player_ = w.player_ ∧
      pre.g_dpad_state = w.g_dpad_state := by
  simp only [tic_entry, int_value_ok _ h1 h2]
  exact ⟨_, rfl, rfl, rfl, rfl, rfl, rfl, rfl, rfl⟩

/-- The state of a run at the wave pass of a representable tick `t`, for a
level whose waves are all `defined` and a world whose tick counter starts at
zero. -/
theorem run_pass_spec (level : Level) (w0 : World) (i : Nat) (wv : Wave)
    (hw : level.waves[i]? = some wv)
    (hvalid : ∀ u ∈ level.waves, u.defined)
    (hT : 0 ≤ wv.start_tic) (hK : 0 < wv.spawn_interval) (hN : 1 ≤ wv.spawn_count)
    (h0 : w0.cur_tic_ = 0) (t : Nat) (ht : (t : Int) ≤ INT_MAX) :
    ∃ pre post w, pass_input level w0 t = .ok pre ∧ advance_waves pre = .ok post ∧
      world_at level w0 t = .ok w ∧ pre.cur_tic_ = t ∧
      post.foes_ = pre.foes_ ++
        (spawning_waves t (admit_waves t level.waves pre.active_waves_)).map
          (fun a => Foe.new a.wave) ∧
      List.countP (fun a : ActiveWave => a.wave.addr == i)
          (spawning_waves t (admit_waves t level.waves pre.active_waves_)) =
        (if wv.start_tic ≤ t ∧
            (t : Int) ≤ wv.start_tic + wv.spawn_interval * (wv.spawn_count - 1) ∧
            ((t : Int) - wv.start_tic) % wv.spawn_interval = 0 then 1 else 0) ∧
      List.countP (fun a : ActiveWave => a.wave.addr == i) post.active_waves_ =
        (if wv.start_tic ≤ t ∧
            (t : Int) < wv.start_tic + wv.spawn_interval * (wv.spawn_count - 1)
          then 1 else 0) ∧
      (∀ a ∈ post.active_waves_, points_into level a) ∧
      (∀ a ∈ post.active_waves_,
        0 ≤ a.wave.obj.start_tic ∧ a.wave.obj.start_tic ≤ (t : Int)) ∧
      w.cur_level_ = some level ∧ w.cur_tic_ = t ∧
      w.active_waves_ = post.active_waves_ := by
  have hP : 0 ≤ wv.spawn_interval * (wv.spawn_count - 1) :=
    mul_nonneg (le_of_lt hK) (by omega)
  induction t with
  | zero =>
    have hc : List.countP (fun a : ActiveWave => a.wave.addr == i)
        (level_entry level w0).active_waves_ =
        if wv.start_tic < ((0 : Nat) : Int) ∧
          ((0 : Nat) : Int) ≤ wv.start_tic + wv.spawn_interval * (wv.spawn_count - 1)
        then 1 else 0 := by
      rw [if_neg (by omega)]
      rfl
    obtain ⟨post, h1, h2, h3, h4, h5, _, _, _, h6, h7, h8⟩ :=
      wave_pass_spec level i wv hw hvalid hK hN ((0 : Nat) : Int) (by omega) ht
        (level_entry level w0)
        rfl (by simpa [level_entry] using h0) (by simp [level_entry]) (by simp [level_entry]) hc
    exact ⟨level_entry level w0, post, post, rfl, h1, h1, by simpa [level_entry] using h0,
      h2, h3, h7, h6, h8, h4, h5, rfl⟩
  | succ t ih =>
    have ht1 : (t : Int) ≤ INT_MAX := by push_cast at ht; omega
    have ht2 : (t : Int) + 1 ≤ INT_MAX := by push_cast at ht; exact ht
    obtain ⟨_, post0, w, _, _, hw0, _, _, _, hcnt, hptr, hst, hlev, htic, hact⟩ := ih ht1
    obtain ⟨pre, hentry, hpt, _, hpl, hpa, _, _, _⟩ := tic_entry_ok w
      (by rw [htic]; exact le_trans (by decide : INT_MIN ≤ 0) (by omega))
      (by rw [htic]; exact ht2)
    have hpre_act : pre.active_waves_ = post0.active_waves_ := by
      rw [hpa]; exact hact
    have hpre_lev : pre.cur_level_ = some level := by
      rw [hpl]; exact hlev
    have hpre_tic : pre.cur_tic_ = ((t + 1 : Nat) : Int) := by
      rw [hpt, htic]; push_cast; rfl
    have hc : List.countP (fun a : ActiveWave => a.wave.addr == i) pre.active_waves_ =
        if wv.start_tic < ((t + 1 : Nat) : Int) ∧
          ((t + 1 : Nat) : Int) ≤ wv.start_tic + wv.spawn_interval * (wv.spawn_count - 1)
        then 1 else 0 := by
      rw [hpre_act, hcnt]
      by_cases h : wv.start_tic ≤ t ∧
          (t : Int) < wv.start_tic + wv.spawn_interval * (wv.spawn_count - 1)
      · rw [if_pos h, if_pos (by push_cast; omega)]
      · rw [if_neg h, if_neg (by push_cast; omega)]
    have hptr1 : ∀ a ∈ pre.active_waves_, points_into level a := by
      intro a ha
      rw [hpre_act] at ha
      exact hptr a ha
    have hst1 : ∀ a ∈ pre.active_waves_,
        0 ≤ a.wave.obj.start_tic ∧ a.wave.obj.start_tic ≤ ((t + 1 : Nat) : Int) := by
      intro a ha
      rw [hpre_act] at ha
      have := hst a ha
      push_cast
      omega
    obtain ⟨post, h1, h2, h3, h4, h5, _, _, _, h6, h7, h8⟩ :=
      wave_pass_spec level i wv hw hvalid hK hN ((t + 1 : Nat) : Int)
        (by push_cast; omega) ht pre hpre_lev hpre_tic hptr1 hst1 hc
    refine ⟨pre, post, advance_player (advance_foes post), ?_, h1, ?_,
      hpre_tic, h2, h3, h7, h6, h8, h4, h5, rfl⟩
    · simp only [pass_input, hw0, hentry]
    · simp only [world_at, hw0, advance_step, hentry, advance_one_tic, h1]

/-- C1 as amended (spawn schedule of a wave). In a run that sets up a level all
of whose waves are `defined` (no zero spawn interval, and `spawn_count - 1` and
`spawn_interval * (spawn_count - 1)` representable as `int`) on a world with
tick counter 0, consider the wave at address `i` with `start_tic = T ≥ 0`,
`spawn_interval = K > 0` and `spawn_count = N ≥ 1`. For every tick
`t ≤ INT_MAX` the wave pass succeeds, appends to the foes one foe per spawning
wave, spawns from wave `i` exactly when `t = T + j K` for some `j < N` (and
then exactly once), and leaves wave `i` active exactly when
`T ≤ t < T + (N - 1) K` (never twice). In total the passes up to any tick
`tmax ≤ INT_MAX` past `T + (N - 1) K` spawn exactly `N` foes from wave `i`. -/
theorem wave_spawn_schedule (level : Level) (w0 : World) (i : Nat) (wv : Wave)
    (hw : level.waves[i]? = some wv)
    (hvalid : ∀ u ∈ level.waves, u.defined)
    (hT : 0 ≤ wv.start_tic) (hK : 0 < wv.spawn_interval) (hN : 1 ≤ wv.spawn_count)
    (h0 : w0.cur_tic_ = 0) :
    (∀ t : Nat, (t : Int) ≤ INT_MAX → ∃ pre post,
      pass_input level w0 t = .ok pre ∧ pre.cur_tic_ = t ∧ advance_waves pre = .ok post ∧
      post.foes_ = pre.foes_ ++
        (spawning_waves t (admit_waves t level.waves pre.active_waves_)).map
          (fun a => Foe.new a.wave) ∧
      (spawned_in_pass level w0 i t = 1 ↔
        ∃ j : Nat, (j : Int) < wv.spawn_count ∧
          (t : Int) = wv.start_tic + j * wv.spawn_interval) ∧
      spawned_in_pass level w0 i t ≤ 1 ∧
      ((∃ a ∈ post.active_waves_, a.wave.addr = i) ↔
        wv.start_tic ≤ t ∧
          (t : Int) < wv.start_tic + (wv.spawn_count - 1) * wv.spawn_interval) ∧
      List.countP (fun a : ActiveWave => a.wave.addr == i) post.active_waves_ ≤ 1) ∧
    (∀ tmax : Nat, (tmax : Int) ≤ INT_MAX →
      wv.start_tic + (wv.spawn_count - 1) * wv.spawn_interval ≤ tmax →
      ((∑ t ∈ Finset.range (tmax + 1), spawned_in_pass level w0 i t : Nat) : Int) =
        wv.spawn_count) := by
  have hspawned : ∀ t : Nat, (t : Int) ≤ INT_MAX → spawned_in_pass level w0 i t =
      if wv.start_tic ≤ t ∧
          (t : Int) ≤ wv.start_tic + wv.spawn_interval * (wv.spawn_count - 1) ∧
          ((t : Int) - wv.start_tic) % wv.spawn_interval = 0 then 1 else 0 := by
    intro t ht
    obtain ⟨pre, post, w, h1, _, _, h4, _, h6, _⟩ :=
      run_pass_spec level w0 i wv hw hvalid hT hK hN h0 t ht
    simp only [spawned_in_pass, h1, h4]
    exact h6
  constructor
  · intro t ht
    obtain ⟨pre, post, w, h1, h2, _, h4, h5, _, h7, _⟩ :=
      run_pass_spec level w0 i wv hw hvalid hT hK hN h0 t ht
    have hsch := schedule_iff wv.start_tic wv.spawn_interval wv.spawn_count hK t
    have hcomm : (wv.spawn_count - 1) * wv.spawn_interval =
        wv.spawn_interval * (wv.spawn_count - 1) := mul_comm _ _
    refine ⟨pre, post, h1, h4, h2, h5, ?_, ?_, ?_, ?_⟩
    · rw [hspawned t ht, ← hsch]
      by_cases h : wv.start_tic ≤ t ∧
          (t : Int) ≤ wv.start_tic + wv.spawn_interval * (wv.spawn_count - 1) ∧
          ((t : Int) - wv.start_tic) % wv.spawn_interval = 0
      · simp [h]
      · simp only [if_neg h, h]
        simp
    · rw [hspawned t ht]
      split <;> omega
    · rw [hcomm]
      have hpos : (∃ a ∈ post.active_waves_, a.wave.addr = i) ↔
          0 < List.countP (fun a : ActiveWave => a.wave.addr == i) post.active_waves_ := by
        rw [List.countP_pos_iff]
        simp
      rw [hpos, h7]
      by_cases h : wv.start_tic ≤ t ∧
          (t : Int) < wv.start_tic + wv.spawn_interval * (wv.spawn_count - 1)
      · simp [h]
      · simp only [if_neg h, h]
        simp
    · rw [h7]
      split <;> omega
  · intro tmax htmax hmax
    have hle : ∀ t ∈ Finset.range (tmax + 1), (t : Int) ≤ INT_MAX := by
      intro t ht
      rw [Finset.mem_range] at ht
      have : (t : Int) ≤ tmax := by exact_mod_cast Nat.lt_succ_iff.mp ht
      omega
    rw [Finset.sum_congr rfl (fun t ht => hspawned t (hle t ht)), Finset.sum_boole]
    exact schedule_card wv.start_tic wv.spawn_interval wv.spawn_count hT hK hN tmax hmax

theorem demo_wave_defined : demo_wave.defined := by
  simp only [Wave.defined, demo_wave]
  decide

/-- The amended schedule theorem applied to the wave of `demo_level` on a fresh
world: the passes of ticks 0 to 20 spawn exactly three foes from it. -/
theorem wave_spawn_schedule_witness :
    demo_level.waves[0]? = some demo_wave ∧ (∀ u ∈ demo_level.waves, u.defined) ∧
      0 ≤ demo_wave.start_tic ∧ 0 < demo_wave.spawn_interval ∧ 1 ≤ demo_wave.spawn_count ∧
      fresh_world.cur_tic_ = 0 ∧ ((20 : Nat) : Int) ≤ INT_MAX ∧
      ((∑ t ∈ Finset.range (20 + 1), spawned_in_pass demo_level fresh_world 0 t : Nat) : Int) =
        demo_wave.spawn_count :=
  have hvalid : ∀ u ∈ demo_level.waves, u.defined := by
    intro u hu
    simp only [demo_level, List.mem_singleton] at hu
    subst hu
    exact demo_wave_defined
  ⟨rfl, hvalid, by decide, by decide, by decide, rfl, by decide,
    (wave_spawn_schedule demo_level fresh_world 0 demo_wave rfl hvalid
      (by decide) (by decide) (by decide) rfl).2 20 (by decide) (by decide)⟩

/-- C1 as stated fails in two ways. First, on a level that also holds a wave
with `spawn_interval = 0`: the wave at address 1 of `zero_interval_level` has
`T = 5`, `K = 1`, `N = 1`, so tick 5 is on its schedule, but the wave pass of
tick 0 divides by the zero interval of the wave at address 0, the run has no
defined continuation and the pass of tick 5 spawns nothing. Second, when
`K (N - 1)` is not representable: the wave of `long_wave_level` has `T = 0`,
`K = 65536`, `N = 65537`, its schedule lasts until tick `65536 * 65536`, but
the wave pass of tick 0 evaluates `65536 * 65536` in `int`, which overflows, so
the wave is not left active by a defined pass. -/
theorem wave_spawn_schedule_counterexample :
    (zero_interval_level.waves[1]? = some late_wave ∧ 0 ≤ late_wave.start_tic ∧
      0 < late_wave.spawn_interval ∧ 1 ≤ late_wave.spawn_count ∧
      fresh_world.cur_tic_ = 0 ∧
      ((5 : Nat) : Int) = late_wave.start_tic + ((0 : Nat) : Int) * late_wave.spawn_interval ∧
      initialize_level zero_interval_level fresh_world = .error Fault.undefined ∧
      pass_input zero_interval_level fresh_world 5 = .error Fault.undefined ∧
      spawned_in_pass zero_interval_level fresh_world 1 5 = 0) ∧
    (long_wave_level.waves[0]? = some long_wave ∧ 0 ≤ long_wave.start_tic ∧
      0 < long_wave.spawn_interval ∧ 1 ≤ long_wave.spawn_count ∧
      fresh_world.cur_tic_ = 0 ∧
      long_wave.start_tic ≤ ((0 : Nat) : Int) ∧
      ((0 : Nat) : Int) <
        long_wave.start_tic + (long_wave.spawn_count - 1) * long_wave.spawn_interval ∧
      initialize_level long_wave_level fresh_world = .error Fault.undefined) :=
  ⟨⟨rfl, by decide, by decide, by decide, rfl, by decide, rfl, rfl, rfl⟩,
    ⟨rfl, by decide, by decide, by decide, rfl, by decide, by decide, rfl⟩⟩

/-! ## The tick loop and the time accumulator -/

theorem MillisecondsPerTic_pos : 0 < MillisecondsPerTic := by
  norm_num [MillisecondsPerTic, TicsPerSecond]

theorem advance_waves_set_timestamp (x : ℚ) (w : World) :
    advance_waves (set_timestamp x w) =
      match advance_waves w with
      | .error e => .error e
      | .ok w1 => .ok (set_timestamp x w1) := by
  unfold advance_waves
  simp only [set_timestamp]
  cases w.cur_level_ with
  | none => rfl
  | some level =>
    simp only []
    cases spawn_loop w.cur_tic_ (admit_waves w.cur_tic_ level.waves w.active_waves_) w.foes_ with
    | error e => rfl
    | ok r => rfl

theorem advance_waves_timestamp (w w1 : World) (h : advance_waves w = .ok w1) :
    w1.timestamp_ = w.timestamp_ := by
  unfold advance_waves at h
  cases hl : w.cur_level_ with
  | none => simp [hl] at h
  | some level =>
    simp only [hl] at h
    cases hs : spawn_loop w.cur_tic_ (admit_waves w.cur_tic_ level.waves w.active_waves_)
        w.foes_ with
    | error e => simp [hs] at h
    | ok r =>
      simp only [hs] at h
      cases h
      rfl

theorem tic_entry_set_timestamp (x : ℚ) (w : World) :
    tic_entry (set_timestamp x w) =
      match tic_entry w with
      | .error e => .error e
      | .ok w1 => .ok (set_timestamp (x - MillisecondsPerTic) w1) := by
  simp only [tic_entry, set_timestamp]
  cases int_value (w.cur_tic_ + 1) with
  | error e => rfl
  | ok tic => rfl

theorem tic_entry_timestamp (w w1 : World) (h : tic_entry w = .ok w1) :
    w1.timestamp_ = w.timestamp_ - MillisecondsPerTic := by
  simp only [tic_entry] at h
  cases hv : int_value (w.cur_tic_ + 1) with
  | error e => simp [hv] at h
  | ok tic =>
    simp only [hv] at h
    cases h
    rfl

theorem advance_step_set_timestamp (x : ℚ) (w : World) :
    advance_step (set_timestamp x w) =
      match advance_step w with
      | .error e => .error e
      | .ok w1 => .ok (set_timestamp (x - MillisecondsPerTic) w1) := by
  simp only [advance_step, tic_entry_set_timestamp]
  cases tic_entry w with
  | error e => rfl
  | ok w0 =>
    simp only [advance_one_tic, advance_waves_set_timestamp]
    cases advance_waves w0 with
    | error e => rfl
    | ok w1 => rfl

theorem advance_step_timestamp (w w1 : World) (h : advance_step w = .ok w1) :
    w1.timestamp_ = w.timestamp_ - MillisecondsPerTic := by
  simp only [advance_step] at h
  cases he : tic_entry w with
  | error e => simp [he] at h
  | ok w0 =>
    simp only [he, advance_one_tic] at h
    cases hw : advance_waves w0 with
    | error e => simp [hw] at h
    | ok w2 =>
      simp only [hw] at h
      cases h
      rw [← tic_entry_timestamp w w0 he]
      exact advance_waves_timestamp w0 w2 hw

/-- The loop of `advance` does not depend on the iteration bound once the bound
covers the accumulator. -/
theorem advance_loop_fuel (n m : Nat) (w : World)
    (hn : w.timestamp_ ≤ (n + 1) * MillisecondsPerTic)
    (hm : w.timestamp_ ≤ (m + 1) * MillisecondsPerTic) :
    advance_loop n w = advance_loop m w := by
  induction n generalizing m w with
  | zero =>
    have h : ¬ (w.timestamp_ > MillisecondsPerTic) := by
      simp only [Nat.cast_zero, zero_add, one_mul] at hn
      exact not_lt.mpr hn
    cases m with
    | zero => rfl
    | succ m => simp only [advance_loop, if_neg h]
  | succ n ih =>
    by_cases h : w.timestamp_ > MillisecondsPerTic
    · cases m with
      | zero =>
        simp only [Nat.cast_zero, zero_add, one_mul] at hm
        exact absurd h (not_lt.mpr hm)
      | succ m =>
        simp only [advance_loop, if_pos h]
        cases hs : advance_step w with
        | error e => rfl
        | ok w1 =>
          have ht := advance_step_timestamp w w1 hs
          simp only []
          apply ih
          · rw [ht]; push_cast at hn ⊢; linarith
          · rw [ht]; push_cast at hm ⊢; linarith
    · cases m with
      | zero => simp only [advance_loop, if_neg h]
      | succ m => simp only [advance_loop, if_neg h]

/-- The bound used by `advance` covers the accumulator: the loop of `advance`
runs until its condition is false. -/
theorem advance_fuel_covers (t : ℚ) :
    t ≤ ((advance_fuel t : Nat) + 1 : ℚ) * MillisecondsPerTic := by
  have hM := MillisecondsPerTic_pos
  have h1 : t / MillisecondsPerTic ≤ (advance_fuel t : ℚ) := Nat.le_ceil _
  have h2 : t ≤ (advance_fuel t : ℚ) * MillisecondsPerTic := by
    rwa [div_le_iff₀ hM] at h1
  linarith

/-- With a covering bound the loop of `advance` stops because its condition is
false, not because the bound is used up. -/
theorem advance_loop_exit (n : Nat) (w w1 : World)
    (hn : w.timestamp_ ≤ (n + 1) * MillisecondsPerTic)
    (h : advance_loop n w = .ok w1) : ¬ (w1.timestamp_ > MillisecondsPerTic) := by
  induction n generalizing w with
  | zero =>
    simp only [Nat.cast_zero, zero_add, one_mul] at hn
    simp only [advance_loop] at h
    cases h
    exact not_lt.mpr hn
  | succ n ih =>
    by_cases hc : w.timestamp_ > MillisecondsPerTic
    · simp only [advance_loop, if_pos hc] at h
      cases hs : advance_step w with
      | error e => simp [hs] at h
      | ok w2 =>
        simp only [hs] at h
        have ht := advance_step_timestamp w w2 hs
        apply ih w2 _ h
        rw [ht]; push_cast at hn ⊢; linarith
    · simp only [advance_loop, if_neg hc] at h
      cases h
      exact hc

theorem advance_eq (dt : ℚ) (w : World) :
    advance dt w =
      advance_loop (advance_fuel (w.timestamp_ + dt)) (set_timestamp (w.timestamp_ + dt) w) :=
  rfl

/-- Running the loop on a covered accumulator and then calling `advance(d)` is
the same as running the loop with `d` added to the accumulator beforehand. -/
theorem advance_loop_then_advance (n : Nat) (w : World) (d : ℚ) (hd : 0 ≤ d)
    (hn : w.timestamp_ ≤ (n + 1) * MillisecondsPerTic) :
    (advance_loop n w >>= advance d) =
      advance_loop (advance_fuel (w.timestamp_ + d)) (set_timestamp (w.timestamp_ + d) w) := by
  have hM := MillisecondsPerTic_pos
  induction n generalizing w with
  | zero =>
    simp only [advance_loop]
    rfl
  | succ n ih =>
    by_cases hc : w.timestamp_ > MillisecondsPerTic
    · have hc1 : (set_timestamp (w.timestamp_ + d) w).timestamp_ > MillisecondsPerTic := by
        show w.timestamp_ + d > MillisecondsPerTic
        linarith
      have hF : 0 < advance_fuel (w.timestamp_ + d) := by
        rw [advance_fuel, Nat.ceil_pos]
        exact div_pos (by linarith) hM
      obtain ⟨F, hFeq⟩ := Nat.exists_eq_succ_of_ne_zero (Nat.pos_iff_ne_zero.mp hF)
      have hcov := advance_fuel_covers (w.timestamp_ + d)
      rw [hFeq]
      rw [hFeq] at hcov
      simp only [advance_loop, if_pos hc, if_pos hc1, advance_step_set_timestamp]
      cases hs : advance_step w with
      | error e => rfl
      | ok w1 =>
        have ht := advance_step_timestamp w w1 hs
        simp only []
        rw [ih w1 (by rw [ht]; push_cast at hn ⊢; linarith)]
        have hts : w1.timestamp_ + d = w.timestamp_ + d - MillisecondsPerTic := by
          rw [ht]; ring
        rw [hts]
        apply advance_loop_fuel
        · exact advance_fuel_covers _
        · show w.timestamp_ + d - MillisecondsPerTic ≤ _
          push_cast at hcov ⊢
          linarith
    · cases n with
      | zero =>
        simp only [advance_loop, if_neg hc]
        rfl
      | succ n =>
        simp only [advance_loop, if_neg hc]
        rfl

theorem advance_then_advance (w : World) (dt1 dt2 : ℚ) (h2 : 0 ≤ dt2) :
    (advance dt1 w >>= advance dt2) = advance (dt1 + dt2) w := by
  have hkey := advance_loop_then_advance (advance_fuel (w.timestamp_ + dt1))
    (set_timestamp (w.timestamp_ + dt1) w) dt2 h2 (advance_fuel_covers (w.timestamp_ + dt1))
  have h : (set_timestamp (w.timestamp_ + dt1) w).timestamp_ + dt2 =
      w.timestamp_ + (dt1 + dt2) := by
    show w.timestamp_ + dt1 + dt2 = _
    ring
  rw [h] at hkey
  rw [advance_eq dt1 w, hkey, advance_eq (dt1 + dt2) w]
  rfl

theorem advance_n_succ (n : Nat) (d : ℚ) (hd : 0 ≤ d) (w : World) :
    advance_n (n + 1) d w = advance ((n + 1 : Nat) * d) w := by
  induction n generalizing w with
  | zero =>
    simp only [advance_n, zero_add, Nat.cast_one, one_mul]
    cases advance d w <;> rfl
  | succ n ih =>
    have hfun : advance_n (n + 1) d = advance ((n + 1 : Nat) * d) := funext ih
    rw [advance_n, hfun, advance_then_advance w d _ (mul_nonneg (Nat.cast_nonneg _) hd)]
    congr 1
    push_cast
    ring

/-- C2 (frame-rate independence of `advance`, exact arithmetic). For every
world, every `dt1` (in particular every `dt1 ≥ 0`) and every `dt2 ≥ 0`, calling
`advance(dt1)` and then `advance(dt2)` gives the same outcome (the same world,
hence the same tick counter, accumulator, foes, active waves and player
position, or the same fault) as the single call `advance(dt1 + dt2)`; and for
`n ≥ 1` and `T ≥ 0`, `n` calls `advance(T / n)` give the same outcome as one
call `advance(T)`. -/
theorem advance_frame_rate_independent (w : World) (dt1 dt2 : ℚ)
    (h2 : 0 ≤ dt2) (n : Nat) (T : ℚ) (hn : 0 < n) (hT : 0 ≤ T) :
    (advance dt1 w >>= advance dt2) = advance (dt1 + dt2) w ∧
      advance_n n (T / n) w = advance T w := by
  refine ⟨advance_then_advance w dt1 dt2 h2, ?_⟩
  obtain ⟨m, rfl⟩ := Nat.exists_eq_succ_of_ne_zero (Nat.pos_iff_ne_zero.mp hn)
  have hpos : (0 : ℚ) < ((m + 1 : Nat) : ℚ) := by exact_mod_cast hn
  rw [Nat.succ_eq_add_one, advance_n_succ m _ (div_nonneg hT (le_of_lt hpos)) w]
  congr 1
  field_simp

/-- The frame-rate theorem applied to `demo_world`: `advance(25)` then
`advance(10)` against `advance(35)`, and 60 calls `advance(1000 / 60)` against
`advance(1000)`. -/
theorem advance_frame_rate_independent_witness :
    (0 : ℚ) ≤ 10 ∧ 0 < 60 ∧ (0 : ℚ) ≤ 1000 ∧
      ((advance 25 demo_world >>= advance 10) = advance (25 + 10) demo_world ∧
        advance_n 60 (1000 / (60 : Nat)) demo_world = advance 1000 demo_world) :=
  ⟨by norm_num, by norm_num, by norm_num,
    advance_frame_rate_independent demo_world 25 10 (by norm_num) 60 1000
      (by norm_num) (by norm_num)⟩

/-! ## Level set-up -/

/-- What `initialize_level` does establish: the level reference, a zero
accumulator, and the collections of one wave pass on empty collections at the
tick counter the world already had, which is left as it was. -/
theorem initialize_level_spec (level : Level) (w w1 : World)
    (h : initialize_level level w = .ok w1) :
    w1.cur_level_ = some level ∧ w1.timestamp_ = 0 ∧ w1.cur_tic_ = w.cur_tic_ ∧
      spawn_loop w.cur_tic_ (admit_waves w.cur_tic_ level.waves []) [] =
        .ok (w1.active_waves_, w1.foes_) := by
  simp only [initialize_level, advance_waves, level_entry] at h
  cases hs : spawn_loop w.cur_tic_ (admit_waves w.cur_tic_ level.waves []) [] with
  | error e => simp [hs] at h
  | ok r =>
    simp only [hs] at h
    cases h
    exact ⟨rfl, rfl, rfl, rfl⟩

/-- C4 (`initialize_level` on a used world). On `stale_world` (tick counter 5)
`initialize_level(demo_level)` returns a world whose tick counter is still 5
and whose foes and active waves are empty, although `demo_level` has a wave
with `start_tic = 0`: the wave pass ran at tick 5. A wave pass at tick 0 on the
same cleared world admits that wave and spawns its first foe. -/
theorem initialize_level_stale_tick :
    (∃ w, initialize_level demo_level stale_world = .ok w ∧ w.cur_tic_ = 5 ∧
      w.timestamp_ = 0 ∧ w.active_waves_ = [] ∧ w.foes_ = []) ∧
    (∃ w, advance_waves { level_entry demo_level stale_world with cur_tic_ := 0 } = .ok w ∧
      w.active_waves_ = [ActiveWave.mk ⟨0, demo_wave⟩] ∧ w.foes_ = [Foe.new ⟨0, demo_wave⟩]) := by
  constructor
  · exact ⟨_, rfl, rfl, rfl, rfl, rfl⟩
  · exact ⟨_, rfl, rfl, rfl⟩

/-! ## Foe exit -/

theorem advance_foes_loop_append (l1 l2 : List Foe) :
    advance_foes_loop (l1 ++ l2) = advance_foes_loop l1 ++ advance_foes_loop l2 := by
  induction l1 with
  | nil => rfl
  | cons f l ih =>
    simp only [List.cons_append, advance_foes_loop]
    split
    · exact ih
    · exact congrArg _ ih

theorem advance_foes_iterate (n : Nat) (w : World) :
    (advance_foes^[n] w).foes_ = advance_foes_loop^[n] w.foes_ := by
  induction n generalizing w with
  | zero => rfl
  | succ n ih =>
    rw [Function.iterate_succ_apply, Function.iterate_succ_apply, ih]
    rfl

theorem foe_after_zero (p : WavePtr) : foe_after p 0 = Foe.new p := by
  simp [foe_after, Foe.new]

/-- One foe pass on the foe that has travelled for `n` ticks. -/
theorem advance_foes_loop_foe_after (p : WavePtr) (n : Nat) :
    advance_foes_loop [foe_after p n] =
      if ((n + 1 : Nat) : ℚ) * p.obj.foe_speed > p.obj.trajectory.length then []
      else [foe_after p (n + 1)] := by
  have h : (n : ℚ) * p.obj.foe_speed + p.obj.foe_speed =
      ((n + 1 : Nat) : ℚ) * p.obj.foe_speed := by push_cast; ring
  simp only [advance_foes_loop, foe_after, h]

theorem foe_survives (p : WavePtr) (hS : 0 < p.obj.foe_speed)
    (hL : 0 ≤ p.obj.trajectory.length) (before after : List Foe) (n : Nat)
    (hn : n ≤ ⌊p.obj.trajectory.length / p.obj.foe_speed⌋₊) :
    advance_foes_loop^[n] (before ++ Foe.new p :: after) =
      advance_foes_loop^[n] before ++ foe_after p n :: advance_foes_loop^[n] after := by
  induction n with
  | zero => simp [foe_after_zero]
  | succ n ih =>
    have hq : 0 ≤ p.obj.trajectory.length / p.obj.foe_speed := div_nonneg hL (le_of_lt hS)
    have h1 : ((n + 1 : Nat) : ℚ) ≤ p.obj.trajectory.length / p.obj.foe_speed :=
      (Nat.le_floor_iff hq).mp hn
    have h2 : ¬ (((n + 1 : Nat) : ℚ) * p.obj.foe_speed > p.obj.trajectory.length) := by
      rw [le_div_iff₀ hS] at h1
      exact not_lt.mpr h1
    rw [Function.iterate_succ_apply', ih (by omega), Function.iterate_succ_apply',
      Function.iterate_succ_apply']
    have h3 : advance_foes_loop^[n] before ++ foe_after p n :: advance_foes_loop^[n] after =
        advance_foes_loop^[n] before ++ ([foe_after p n] ++ advance_foes_loop^[n] after) := rfl
    rw [h3, advance_foes_loop_append, advance_foes_loop_append, advance_foes_loop_foe_after,
      if_neg h2]
    rfl

theorem foe_removed (p : WavePtr) (hS : 0 < p.obj.foe_speed)
    (hL : 0 ≤ p.obj.trajectory.length) (before after : List Foe) :
    advance_foes_loop^[⌊p.obj.trajectory.length / p.obj.foe_speed⌋₊ + 1]
        (before ++ Foe.new p :: after) =
      advance_foes_loop^[⌊p.obj.trajectory.length / p.obj.foe_speed⌋₊ + 1] before ++
        advance_foes_loop^[⌊p.obj.trajectory.length / p.obj.foe_speed⌋₊ + 1] after := by
  have h1 : p.obj.trajectory.length / p.obj.foe_speed <
      ((⌊p.obj.trajectory.length / p.obj.foe_speed⌋₊ + 1 : Nat) : ℚ) := by
    push_cast
    exact Nat.lt_floor_add_one _
  have h2 : ((⌊p.obj.trajectory.length / p.obj.foe_speed⌋₊ + 1 : Nat) : ℚ) * p.obj.foe_speed >
      p.obj.trajectory.length := by
    rwa [div_lt_iff₀ hS] at h1
  rw [Function.iterate_succ_apply', foe_survives p hS hL before after _ le_rfl,
    Function.iterate_succ_apply', Function.iterate_succ_apply']
  have h3 : ∀ A B : List Foe, ∀ f : Foe, A ++ f :: B = A ++ ([f] ++ B) := fun _ _ _ => rfl
  rw [h3, advance_foes_loop_append, advance_foes_loop_append, advance_foes_loop_foe_after,
    if_pos h2]
  rfl

/-- C3 as amended (foe exit). A foe spawned from a wave with speed `S > 0` on a
trajectory of length `L ≥ 0` starts at trajectory position 0. In any live set
containing it, it is still present, at trajectory position `n S`, after each of
the first `⌊L / S⌋` foe passes, and the next pass, number `⌊L / S⌋ + 1`, removes
it; the foes before and after it are advanced on their own. -/
theorem foe_exit (p : WavePtr) (hS : 0 < p.obj.foe_speed)
    (hL : 0 ≤ p.obj.trajectory.length) (w : World) (before after : List Foe)
    (hw : w.foes_ = before ++ Foe.new p :: after) :
    (∀ n : Nat, n ≤ ⌊p.obj.trajectory.length / p.obj.foe_speed⌋₊ →
      (advance_foes^[n] w).foes_ =
        advance_foes_loop^[n] before ++ foe_after p n :: advance_foes_loop^[n] after) ∧
    (advance_foes^[⌊p.obj.trajectory.length / p.obj.foe_speed⌋₊ + 1] w).foes_ =
      advance_foes_loop^[⌊p.obj.trajectory.length / p.obj.foe_speed⌋₊ + 1] before ++
        advance_foes_loop^[⌊p.obj.trajectory.length / p.obj.foe_speed⌋₊ + 1] after := by
  constructor
  · intro n hn
    rw [advance_foes_iterate, hw]
    exact foe_survives p hS hL before after n hn
  · rw [advance_foes_iterate, hw]
    exact foe_removed p hS hL before after

/-- The amended foe-exit statement applied to `one_foe_world`. -/
theorem foe_exit_witness :
    (0 : ℚ) < 5 ∧ (0 : ℚ) ≤ 100 ∧
    ((∀ n : Nat, n ≤ ⌊(100 : ℚ) / 5⌋₊ →
      (advance_foes^[n] one_foe_world).foes_ =
        advance_foes_loop^[n] [] ++ foe_after ⟨0, demo_wave⟩ n :: advance_foes_loop^[n] []) ∧
    (advance_foes^[⌊(100 : ℚ) / 5⌋₊ + 1] one_foe_world).foes_ =
      advance_foes_loop^[⌊(100 : ℚ) / 5⌋₊ + 1] [] ++
        advance_foes_loop^[⌊(100 : ℚ) / 5⌋₊ + 1] []) :=
  ⟨by norm_num, by norm_num,
    foe_exit ⟨0, demo_wave⟩ (by norm_num [demo_wave]) (by norm_num [demo_wave, demo_trajectory])
      one_foe_world [] [] rfl⟩

/-- C3 as stated fails when `S` divides `L`: with `L = 100` and `S = 5`,
`⌈L / S⌉ = 20`, and after 20 foe passes the foe is still in the live set (at
trajectory position 100, which does not exceed 100). -/
theorem foe_exit_counterexample :
    ⌈(demo_wave.trajectory.length / demo_wave.foe_speed : ℚ)⌉₊ = 20 ∧
      (advance_foes^[20] one_foe_world).foes_ = [foe_after ⟨0, demo_wave⟩ 20] ∧
      (foe_after ⟨0, demo_wave⟩ 20).trajectory_position = 100 := by
  have hfloor : ⌊(demo_wave.trajectory.length / demo_wave.foe_speed : ℚ)⌋₊ = 20 := by
    have : (demo_wave.trajectory.length / demo_wave.foe_speed : ℚ) = ((20 : Nat) : ℚ) := by
      norm_num [demo_wave, demo_trajectory]
    rw [this, Nat.floor_natCast]
  refine ⟨?_, ?_, ?_⟩
  · have : (demo_wave.trajectory.length / demo_wave.foe_speed : ℚ) = ((20 : Nat) : ℚ) := by
      norm_num [demo_wave, demo_trajectory]
    rw [this, Nat.ceil_natCast]
  · rw [advance_foes_iterate]
    have h := foe_survives ⟨0, demo_wave⟩ (by norm_num [demo_wave])
      (by norm_num [demo_wave, demo_trajectory]) [] [] 20 (by rw [hfloor])
    have hnil : ∀ n : Nat, advance_foes_loop^[n] [] = [] := by
      intro n
      induction n with
      | zero => rfl
      | succ n ih => rw [Function.iterate_succ_apply', ih]; rfl
    rw [hnil] at h
    exact h
  · norm_num [foe_after, demo_wave]

/-! ## Mask construction -/

theorem testBit_one (k : Nat) : (1 : Nat).testBit k = decide (k = 0) := by
  cases k with
  | zero => rfl
  | succ k =>
    have h : ¬ ((1 : Nat).testBit (k + 1) = true) := by
      rw [Nat.testBit_one_eq_true_iff_self_eq_zero]
      omega
    simpa using h

theorem testBit_of_lt_64 (x b : Nat) (hx : x < 2 ^ 64) (hb : 64 ≤ b) : x.testBit b = false :=
  Nat.testBit_lt_two_pow (lt_of_lt_of_le hx (Nat.pow_le_pow_right (by norm_num) hb))

theorem shl1_testBit (mask k : Nat) :
    ((mask <<< 1) % 2 ^ 64).testBit k =
      (decide (k < 64) && (decide (k ≥ 1) && mask.testBit (k - 1))) := by
  rw [Nat.testBit_mod_two_pow, Nat.testBit_shiftLeft]

/-- Bits of the accumulator of `initialize_mask` after one column is pushed. -/
theorem push_bit_testBit (mask : Nat) (a : Bool) (k : Nat) :
    (if a = true then (mask <<< 1) % 2 ^ 64 ||| 1 else (mask <<< 1) % 2 ^ 64).testBit k =
      if k = 0 then a else (decide (k < 64) && mask.testBit (k - 1)) := by
  cases k with
  | zero =>
    cases a
    · rw [if_neg (by simp), shl1_testBit]
      simp
    · rw [if_pos rfl, Nat.testBit_or, shl1_testBit]
      simp
  | succ k =>
    cases a
    · rw [if_neg (by simp), shl1_testBit]
      simp
    · rw [if_pos rfl, Nat.testBit_or, shl1_testBit, testBit_one]
      simp

/-- The mask computed by the inner loop of `initialize_mask`: the `todo` columns
from `j` on occupy bits `todo - 1` down to `0` (column `j` highest), above them
are the bits accumulated before, and bits from 64 on are lost. -/
theorem mask_row_loop_bits (tile : Tile) (i : Nat) (todo j mask result : Nat)
    (hmask : mask < 2 ^ 64) (h : mask_row_loop tile i todo j mask = .ok result) :
    result < 2 ^ 64 ∧ ∀ b : Nat, result.testBit b =
      (decide (b < 64) &&
        (if b < todo then tile.solid (j + (todo - 1 - b)) i else mask.testBit (b - todo))) := by
  induction todo generalizing j mask with
  | zero =>
    simp only [mask_row_loop, Except.ok.injEq] at h
    subst h
    refine ⟨hmask, fun b => ?_⟩
    by_cases hb : b < 64
    · simp [hb]
    · simp [hb, testBit_of_lt_64 mask b hmask (by omega)]
  | succ todo ih =>
    simp only [mask_row_loop] at h
    cases hp : read_pixel tile.pixmap
        (((i : Int) + tile.position.2) * tile.pixmap.width + (j : Int) + tile.position.1) with
    | error e => simp [hp] at h
    | ok pixel =>
      simp only [hp] at h
      have hsolid : tile.solid j i = alpha_set pixel := by simp only [Tile.solid, hp]
      have hm1 : (mask <<< 1) % 2 ^ 64 < 2 ^ 64 := Nat.mod_lt _ (by norm_num)
      have hm2 : (if alpha_set pixel = true then (mask <<< 1) % 2 ^ 64 ||| 1
          else (mask <<< 1) % 2 ^ 64) < 2 ^ 64 := by
        split
        · exact Nat.or_lt_two_pow hm1 (by norm_num)
        · exact hm1
      obtain ⟨hr, hbits⟩ := ih (j + 1) _ hm2 h
      refine ⟨hr, fun b => ?_⟩
      rw [hbits b, push_bit_testBit]
      by_cases hb : b < 64
      · simp only [hb, decide_True, Bool.true_and]
        by_cases h1 : b < todo
        · have h2 : b < todo + 1 := by omega
          have h3 : j + 1 + (todo - 1 - b) = j + (todo + 1 - 1 - b) := by omega
          rw [if_pos h1, if_pos h2, h3]
        · rw [if_neg h1]
          by_cases h2 : b = todo
          · subst h2
            have h3 : b < b + 1 := by omega
            have h4 : j + (b + 1 - 1 - b) = j := by omega
            rw [if_pos h3, h4, hsolid, Nat.sub_self, if_pos rfl]
          · have h3 : ¬ (b < todo + 1) := by omega
            have h4 : ¬ (b - todo = 0) := by omega
            have h5 : b - todo - 1 = b - (todo + 1) := by omega
            have h6 : b - todo < 64 := by omega
            rw [if_neg h3, if_neg h4, h5]
            simp [h6]
      · simp [hb]

theorem read_pixel_ok (pm : Pixmap) (index : Int) (h0 : 0 ≤ index)
    (h1 : index.toNat < pm.pixels.length) : ∃ pixel, read_pixel pm index = .ok pixel := by
  simp only [read_pixel, if_neg (not_lt.mpr h0), List.getElem?_eq_getElem h1]
  exact ⟨_, rfl⟩

theorem read_pixel_error (pm : Pixmap) (index : Int) (e : Fault)
    (h : read_pixel pm index = .error e) : e = Fault.undefined := by
  simp only [read_pixel] at h
  split at h
  · cases h; rfl
  · split at h
    · cases h; rfl
    · cases h

theorem mask_row_loop_ok (tile : Tile) (i todo j mask : Nat)
    (h : ∀ c : Nat, j ≤ c → c < j + todo → ∃ pixel, read_pixel tile.pixmap
      (((i : Int) + tile.position.2) * tile.pixmap.width + (c : Int) + tile.position.1) =
        .ok pixel) :
    ∃ result, mask_row_loop tile i todo j mask = .ok result := by
  induction todo generalizing j mask with
  | zero => exact ⟨mask, rfl⟩
  | succ todo ih =>
    obtain ⟨pixel, hp⟩ := h j le_rfl (by omega)
    simp only [mask_row_loop, hp]
    exact ih (j + 1) _ (fun c h1 h2 => h c (by omega) (by omega))

theorem mask_row_loop_error (tile : Tile) (i todo j mask : Nat) (e : Fault)
    (h : mask_row_loop tile i todo j mask = .error e) : e = Fault.undefined := by
  induction todo generalizing j mask with
  | zero => simp [mask_row_loop] at h
  | succ todo ih =>
    simp only [mask_row_loop] at h
    cases hp : read_pixel tile.pixmap
        (((i : Int) + tile.position.2) * tile.pixmap.width + (j : Int) + tile.position.1) with
    | error e1 =>
      simp only [hp] at h
      cases h
      exact read_pixel_error _ _ _ hp
    | ok pixel =>
      simp only [hp] at h
      exact ih _ _ h

/-- The masks pushed by the outer loop of `initialize_mask`: one per row, each
the result of the inner loop for that row. -/
theorem mask_rows_loop_spec (tile : Tile) (todo i : Nat) (masks : List Nat)
    (h : mask_rows_loop tile todo i = .ok masks) :
    masks.length = todo ∧ ∀ k : Nat, k < todo → ∃ m, masks[k]? = some m ∧
      mask_row_loop tile (i + k) tile.size.1.toNat 0 0 = .ok m := by
  induction todo generalizing i masks with
  | zero =>
    simp only [mask_rows_loop, Except.ok.injEq] at h
    subst h
    exact ⟨rfl, fun k hk => absurd hk (by omega)⟩
  | succ todo ih =>
    simp only [mask_rows_loop] at h
    cases hr : mask_row_loop tile i tile.size.1.toNat 0 0 with
    | error e => simp [hr] at h
    | ok mask =>
      simp only [hr] at h
      cases hrest : mask_rows_loop tile todo (i + 1) with
      | error e => simp [hrest] at h
      | ok rest =>
        simp only [hrest, Except.ok.injEq] at h
        subst h
        obtain ⟨hlen, hget⟩ := ih (i + 1) rest hrest
        refine ⟨by simp [hlen], fun k hk => ?_⟩
        cases k with
        | zero => exact ⟨mask, by simp, hr⟩
        | succ k =>
          obtain ⟨m, hm1, hm2⟩ := hget k (by omega)
          refine ⟨m, by simpa using hm1, ?_⟩
          have : i + (k + 1) = i + 1 + k := by omega
          rw [this]
          exact hm2

theorem mask_rows_loop_ok (tile : Tile) (todo i : Nat)
    (h : ∀ r : Nat, i ≤ r → r < i + todo →
      ∃ m, mask_row_loop tile r tile.size.1.toNat 0 0 = .ok m) :
    ∃ masks, mask_rows_loop tile todo i = .ok masks := by
  induction todo generalizing i with
  | zero => exact ⟨[], rfl⟩
  | succ todo ih =>
    obtain ⟨m, hm⟩ := h i le_rfl (by omega)
    obtain ⟨rest, hrest⟩ := ih (i + 1) (fun r h1 h2 => h r (by omega) (by omega))
    exact ⟨m :: rest, by simp only [mask_rows_loop, hm, hrest]⟩

theorem mask_rows_loop_error (tile : Tile) (todo i : Nat) (e : Fault)
    (h : mask_rows_loop tile todo i = .error e) : e = Fault.undefined := by
  induction todo generalizing i with
  | zero => simp [mask_rows_loop] at h
  | succ todo ih =>
    simp only [mask_rows_loop] at h
    cases hr : mask_row_loop tile i tile.size.1.toNat 0 0 with
    | error e1 =>
      simp only [hr] at h
      cases h
      exact mask_row_loop_error _ _ _ _ _ _ hr
    | ok mask =>
      simp only [hr] at h
      cases hrest : mask_rows_loop tile todo (i + 1) with
      | error e1 =>
        simp only [hrest] at h
        cases h
        exact ih _ hrest
      | ok rest => simp [hrest] at h

/-- The masks of a constructed sprite: one per tile row; in row `r`, bit `b`
(for `b < 64`) is set exactly when `b` is below the tile width `W` and the
pixel in column `W - 1 - b` of that row is solid. -/
theorem sprite_new_masks (tile : Tile) (s : Sprite) (h : Sprite.new tile = .ok s) :
    s.tile = tile ∧ s.masks_.length = tile.size.2.toNat ∧
      ∀ r : Nat, r < tile.size.2.toNat → ∃ m, s.masks_[r]? = some m ∧ m < 2 ^ 64 ∧
        ∀ b : Nat, m.testBit b =
          (decide (b < 64) && (decide (b < tile.size.1.toNat) &&
            tile.solid (tile.size.1.toNat - 1 - b) r)) := by
  simp only [Sprite.new, initialize_mask] at h
  by_cases htype : tile.pixmap.type = PixelType.RGBAlpha
  swap
  · simp [htype] at h
  by_cases hneg : tile.size.2 < 0
  · simp [htype, hneg] at h
  · simp only [htype, ne_eq, not_true_eq_false, if_false, if_neg hneg] at h
    cases hm : mask_rows_loop tile tile.size.2.toNat 0 with
    | error e => simp [hm] at h
    | ok masks =>
      simp only [hm, Except.ok.injEq] at h
      subst h
      obtain ⟨hlen, hget⟩ := mask_rows_loop_spec tile _ 0 masks hm
      refine ⟨rfl, hlen, fun r hr => ?_⟩
      obtain ⟨m, hm1, hm2⟩ := hget r hr
      rw [Nat.zero_add] at hm2
      obtain ⟨hlt, hbits⟩ := mask_row_loop_bits tile r _ 0 0 m (by norm_num) hm2
      refine ⟨m, hm1, hlt, fun b => ?_⟩
      rw [hbits b]
      by_cases hb : b < tile.size.1.toNat
      · simp [hb]
      · simp [hb]

/-- A constructed sprite has a tile of non-negative height: `reserve` has not
thrown. -/
theorem sprite_new_height (tile : Tile) (s : Sprite) (h : Sprite.new tile = .ok s) :
    0 ≤ tile.size.2 := by
  by_contra hneg
  have hlt : tile.size.2 < 0 := by omega
  simp only [Sprite.new, initialize_mask] at h
  by_cases htype : tile.pixmap.type = PixelType.RGBAlpha
  · simp [htype, hlt] at h
  · simp [htype] at h

/-- Construction fails with `std::length_error` on an RGBA pixmap when the tile
height is negative. -/
theorem sprite_new_negative_height (tile : Tile)
    (htype : tile.pixmap.type = PixelType.RGBAlpha) (hneg : tile.size.2 < 0) :
    Sprite.new tile = .error Fault.exception := by
  simp [Sprite.new, initialize_mask, htype, hneg]

/-- Construction succeeds on an RGBA pixmap when the tile has a non-negative
height and lies inside the pixel data, whatever the tile width. -/
theorem sprite_new_ok (tile : Tile) (htype : tile.pixmap.type = PixelType.RGBAlpha)
    (hH : 0 ≤ tile.size.2) (hin : tile.in_bounds) : ∃ s, Sprite.new tile = .ok s := by
  have hneg : ¬ (tile.size.2 < 0) := by omega
  have hrows : ∃ masks, mask_rows_loop tile tile.size.2.toNat 0 = .ok masks := by
    apply mask_rows_loop_ok
    intro r _ hr
    apply mask_row_loop_ok
    intro c _ hc
    obtain ⟨h0, h1⟩ := hin r c (by omega) (by omega)
    exact read_pixel_ok _ _ h0 h1
  obtain ⟨masks, hm⟩ := hrows
  exact ⟨{ tile := tile, masks_ := masks },
    by simp [Sprite.new, initialize_mask, htype, hm, hneg]⟩

/-- Construction fails its assertion exactly when the pixmap is not RGBA. -/
theorem sprite_new_assertion_iff (tile : Tile) :
    Sprite.new tile = .error Fault.assertion ↔ tile.pixmap.type ≠ PixelType.RGBAlpha := by
  constructor
  · intro h htype
    by_cases hneg : tile.size.2 < 0
    · rw [sprite_new_negative_height tile htype hneg] at h
      cases h
    · simp only [Sprite.new, initialize_mask, htype, ne_eq, not_true_eq_false, if_false,
        if_neg hneg] at h
      cases hm : mask_rows_loop tile tile.size.2.toNat 0 with
      | error e =>
        simp only [hm, Except.error.injEq] at h
        have := mask_rows_loop_error _ _ _ _ hm
        rw [h] at this
        cases this
      | ok masks => simp [hm] at h
  · intro htype
    simp [Sprite.new, initialize_mask, htype]

/-! ## Collision test -/

theorem and_ne_zero_iff (x y : Nat) :
    x &&& y ≠ 0 ↔ ∃ b : Nat, x.testBit b = true ∧ y.testBit b = true := by
  constructor
  · intro h
    obtain ⟨b, hb⟩ := Nat.ne_zero_implies_bit_true h
    rw [Nat.testBit_and, Bool.and_eq_true] at hb
    exact ⟨b, hb⟩
  · rintro ⟨b, h1, h2⟩ h0
    have h3 : (x &&& y).testBit b = true := by
      rw [Nat.testBit_and, h1, h2]
      rfl
    rw [h0] at h3
    simp at h3

theorem read_mask_ok (masks : List Nat) (r : Nat) (m : Nat) (h : masks[r]? = some m) :
    read_mask masks (r : Int) = .ok m := by
  have h0 : ¬ ((r : Int) < 0) := by omega
  simp only [read_mask, if_neg h0, Int.toNat_ofNat, h]

/-- The body of the row loop of `collides_with` on two masks laid out as
`initialize_mask` lays them out for tiles of one width `W ≤ 64`: if the shift
count is defined, the test is true exactly when a solid column `c` of this row
and a solid column `c1` of the other row satisfy `c = c1 + col_offset`. -/
theorem masks_overlap_iff (W : Nat) (hW : W ≤ 64) (sa sb : Nat → Bool) (ma mb : Nat)
    (ha : ∀ b : Nat, ma.testBit b = (decide (b < 64) && (decide (b < W) && sa (W - 1 - b))))
    (hb : ∀ b : Nat, mb.testBit b = (decide (b < 64) && (decide (b < W) && sb (W - 1 - b))))
    (col_offset : Int) (h64 : col_offset ≠ -64) (hlo : -(W : Int) ≤ col_offset)
    (hhi : col_offset < W) :
    ∃ shifted, (if col_offset > 0 then shr64 mb col_offset else shl64 mb (-col_offset)) =
        .ok shifted ∧
      (ma &&& shifted ≠ 0 ↔ ∃ c c1 : Nat, c < W ∧ c1 < W ∧ sa c = true ∧ sb c1 = true ∧
        (c : Int) = c1 + col_offset) := by
  by_cases hpos : col_offset > 0
  · have hr : 0 ≤ col_offset ∧ col_offset < 64 := by omega
    refine ⟨mb >>> col_offset.toNat, by simp only [if_pos hpos, shr64, if_pos hr], ?_⟩
    rw [and_ne_zero_iff]
    constructor
    · rintro ⟨b, h1, h2⟩
      rw [ha b] at h1
      rw [Nat.testBit_shiftRight, hb] at h2
      simp only [Bool.and_eq_true, decide_eq_true_eq] at h1 h2
      refine ⟨W - 1 - b, W - 1 - (col_offset.toNat + b), by omega, by omega, h1.2.2, h2.2.2, ?_⟩
      omega
    · rintro ⟨c, c1, hc, hc1, hsa, hsb, heq⟩
      refine ⟨W - 1 - c, ?_, ?_⟩
      · rw [ha]
        have h1 : W - 1 - (W - 1 - c) = c := by omega
        simp only [h1, hsa, Bool.and_true, Bool.and_eq_true, decide_eq_true_eq]
        omega
      · rw [Nat.testBit_shiftRight, hb]
        have h1 : W - 1 - (col_offset.toNat + (W - 1 - c)) = c1 := by omega
        simp only [h1, hsb, Bool.and_true, Bool.and_eq_true, decide_eq_true_eq]
        omega
  · have hr : 0 ≤ -col_offset ∧ -col_offset < 64 := by omega
    refine ⟨(mb <<< (-col_offset).toNat) % 2 ^ 64,
      by simp only [if_neg hpos, shl64, if_pos hr], ?_⟩
    rw [and_ne_zero_iff]
    constructor
    · rintro ⟨b, h1, h2⟩
      rw [ha b] at h1
      rw [Nat.testBit_mod_two_pow, Nat.testBit_shiftLeft, hb] at h2
      simp only [Bool.and_eq_true, decide_eq_true_eq, ge_iff_le] at h1 h2
      refine ⟨W - 1 - b, W - 1 - (b - (-col_offset).toNat), by omega, by omega, h1.2.2,
        h2.2.2.2.2, ?_⟩
      omega
    · rintro ⟨c, c1, hc, hc1, hsa, hsb, heq⟩
      refine ⟨W - 1 - c, ?_, ?_⟩
      · rw [ha]
        have h1 : W - 1 - (W - 1 - c) = c := by omega
        simp only [h1, hsa, Bool.and_true, Bool.and_eq_true, decide_eq_true_eq]
        omega
      · rw [Nat.testBit_mod_two_pow, Nat.testBit_shiftLeft, hb]
        have h1 : W - 1 - (W - 1 - c - (-col_offset).toNat) = c1 := by omega
        simp only [h1, hsb, Bool.and_true, Bool.and_eq_true, decide_eq_true_eq, ge_iff_le]
        omega

/-- The row loop of `collides_with`, given what its body returns at each row. -/
theorem collides_loop_spec (A B : Sprite) (dy dx : Int) (P : Nat → Prop) (todo row : Nat)
    (h : ∀ k : Nat, k < todo → ∃ b, collides_at_row A B dy dx (row + k) = .ok b ∧
      (b = true ↔ P (row + k))) :
    ∃ b, collides_loop A B dy dx todo row = .ok b ∧
      (b = true ↔ ∃ k : Nat, k < todo ∧ P (row + k)) := by
  induction todo generalizing row with
  | zero => exact ⟨false, rfl, by simp⟩
  | succ todo ih =>
    obtain ⟨b0, hb0, hP0⟩ := h 0 (by omega)
    rw [Nat.add_zero] at hb0 hP0
    cases b0 with
    | true =>
      refine ⟨true, by simp only [collides_loop, hb0], ?_⟩
      simp only [true_iff]
      exact ⟨0, by omega, hP0.mp rfl⟩
    | false =>
      obtain ⟨b, hb, hP⟩ := ih (row + 1) (fun k hk => by
        have := h (k + 1) (by omega)
        rwa [show row + (k + 1) = row + 1 + k by omega] at this)
      refine ⟨b, by simp only [collides_loop, hb0, hb], ?_⟩
      rw [hP]
      constructor
      · rintro ⟨k, hk, hPk⟩
        exact ⟨k + 1, by omega, by rwa [show row + (k + 1) = row + 1 + k by omega]⟩
      · rintro ⟨k, hk, hPk⟩
        cases k with
        | zero =>
          rw [Nat.add_zero] at hPk
          have := hP0.mpr hPk
          cases this
        | succ k =>
          exact ⟨k, by omega, by rwa [show row + (k + 1) = row + 1 + k by omega] at hPk⟩

/-- The body of the row loop of `collides_with` on two constructed sprites of
one tile width at most 64, for an offset that passes the early reject and
does not ask for a shift by 64. -/
theorem collides_at_row_spec (tA tB : Tile) (A B : Sprite)
    (hA : Sprite.new tA = .ok A) (hB : Sprite.new tB = .ok B)
    (hW : tA.size.1 = tB.size.1) (hW64 : tA.size.1 ≤ 64) (dx dy : Int)
    (h64 : tA.size.1 = 64 → dx ≠ -64) (hlo : -tB.size.1 ≤ dx) (hhi : dx < tA.size.1)
    (r : Nat) (hr : r < tA.size.2.toNat) :
    ∃ b, collides_at_row A B dy dx r = .ok b ∧
      (b = true ↔ (0 ≤ (r : Int) + dy ∧ (r : Int) + dy < tB.size.2 ∧
        ∃ c c1 : Nat, c < tA.size.1.toNat ∧ c1 < tA.size.1.toNat ∧
          tA.solid c r = true ∧ tB.solid c1 ((r : Int) + dy).toNat = true ∧
          (c : Int) = c1 + dx)) := by
  obtain ⟨htA, _, hmA⟩ := sprite_new_masks tA A hA
  obtain ⟨htB, _, hmB⟩ := sprite_new_masks tB B hB
  have h64a : dx ≠ -64 := by
    by_cases hw : tA.size.1 = 64
    · exact h64 hw
    · omega
  by_cases hin : (r : Int) + dy ≥ 0 ∧ (r : Int) + dy < tB.size.2
  · obtain ⟨ma, hma, _, hbitsA⟩ := hmA r hr
    obtain ⟨mb, hmb, _, hbitsB⟩ := hmB ((r : Int) + dy).toNat (by omega)
    have hrA := read_mask_ok A.masks_ r ma hma
    have hrB : read_mask B.masks_ ((r : Int) + dy) = .ok mb := by
      have := read_mask_ok B.masks_ ((r : Int) + dy).toNat mb hmb
      rwa [Int.toNat_of_nonneg hin.1] at this
    rw [← hW] at hbitsB
    obtain ⟨shifted, hshift, hiff⟩ := masks_overlap_iff tA.size.1.toNat (by omega)
      (fun c => tA.solid c r) (fun c => tB.solid c ((r : Int) + dy).toNat) ma mb
      hbitsA hbitsB dx h64a (by omega) (by omega)
    refine ⟨decide (ma &&& shifted ≠ 0), ?_, ?_⟩
    · simp only [collides_at_row, htB, if_pos hin, hrA, hrB]
      by_cases hpos : dx > 0
      · rw [if_pos hpos] at hshift
        simp only [if_pos hpos, hshift]
      · rw [if_neg hpos] at hshift
        simp only [if_neg hpos, hshift]
    · rw [decide_eq_true_eq, hiff]
      constructor
      · intro h
        exact ⟨hin.1, hin.2, h⟩
      · intro h
        exact h.2.2
  · refine ⟨false, by simp only [collides_at_row, htB, if_neg hin], ?_⟩
    constructor
    · intro h
      cases h
    · intro h
      exact absurd ⟨h.1, h.2.1⟩ hin

/-- The collision test on two constructed sprites of one tile width at most 64:
for every offset, except `dx = -64` at width 64, the call returns, and it
returns `true` exactly when a solid pixel `(c, r)` of this tile and a solid pixel `(c1, r1)`
of the other tile satisfy `c = c1 + dx` and `r1 = r + dy`. -/
theorem collides_with_spec (tA tB : Tile) (A B : Sprite)
    (hA : Sprite.new tA = .ok A) (hB : Sprite.new tB = .ok B)
    (hW : tA.size.1 = tB.size.1) (hW64 : tA.size.1 ≤ 64) (hH : 0 ≤ tA.size.2)
    (dx dy : Int) (h64 : tA.size.1 = 64 → dx ≠ -64) :
    ∃ b, collides_with A B (dx, dy) = .ok b ∧
      (b = true ↔ ∃ c r c1 r1 : Nat, (c : Int) < tA.size.1 ∧ (r : Int) < tA.size.2 ∧
        (c1 : Int) < tB.size.1 ∧ (r1 : Int) < tB.size.2 ∧
        tA.solid c r = true ∧ tB.solid c1 r1 = true ∧
        (c : Int) = c1 + dx ∧ (r1 : Int) = r + dy) := by
  obtain ⟨htA, hlenA, _⟩ := sprite_new_masks tA A hA
  obtain ⟨htB, _, _⟩ := sprite_new_masks tB B hB
  by_cases hrej : dx ≥ tA.size.1 ∨ dx < -tB.size.1
  · refine ⟨false, by simp only [collides_with, htA, htB, if_pos hrej], ?_⟩
    constructor
    · intro h
      cases h
    · rintro ⟨c, r, c1, r1, h1, _, h3, _, _, _, h7, _⟩
      omega
  · have hlen : ¬ ((A.masks_.length : Int) ≠ tA.size.2) := by
      rw [hlenA, Int.toNat_of_nonneg hH]
      simp
    obtain ⟨b, hb, hiff⟩ := collides_loop_spec A B dy dx
      (fun r => 0 ≤ (r : Int) + dy ∧ (r : Int) + dy < tB.size.2 ∧
        ∃ c c1 : Nat, c < tA.size.1.toNat ∧ c1 < tA.size.1.toNat ∧
          tA.solid c r = true ∧ tB.solid c1 ((r : Int) + dy).toNat = true ∧
          (c : Int) = c1 + dx) tA.size.2.toNat 0
      (fun k hk => by
        rw [Nat.zero_add]
        exact collides_at_row_spec tA tB A B hA hB hW hW64 dx dy h64 (by omega) (by omega)
          k hk)
    refine ⟨b, by simp only [collides_with, htA, htB, if_neg hrej, if_neg hlen, hb], ?_⟩
    rw [hiff]
    constructor
    · rintro ⟨r, hr, h1, h2, c, c1, hc, hc1, hsa, hsb, heq⟩
      rw [Nat.zero_add] at h1 h2 hsa hsb
      exact ⟨c, r, c1, ((r : Int) + dy).toNat, by omega, by omega, by omega, by omega,
        hsa, hsb, heq, by omega⟩
    · rintro ⟨c, r, c1, r1, h1, h2, h3, h4, hsa, hsb, h7, h8⟩
      refine ⟨r, by omega, ?_⟩
      rw [Nat.zero_add]
      have hr1 : ((r : Int) + dy).toNat = r1 := by omega
      exact ⟨by omega, by omega, c, c1, by omega, by omega, hsa, by rw [hr1]; exact hsb, h7⟩

theorem one_px_tile_new : Sprite.new one_px_tile = .ok one_px_sprite := rfl

theorem two_px_tile_new : Sprite.new two_px_tile = .ok two_px_sprite := rfl

theorem two_px_tile_in_bounds : two_px_tile.in_bounds := by
  intro r c hr hc
  simp only [two_px_tile, two_px_pixmap, Int.toNat_ofNat, Int.toNat_one] at hr hc
  simp only [two_px_tile, two_px_pixmap, List.length_cons, List.length_nil]
  omega

theorem wide_tile_in_bounds : wide_tile.in_bounds := by
  intro r c hr hc
  simp only [wide_tile, wide_pixmap, Int.toNat_ofNat, Int.toNat_one] at hr hc
  simp only [wide_tile, wide_pixmap, List.length_cons, List.length_replicate]
  omega

/-! ## Properties of the collision masks -/

/-- C5 (pixel accuracy of `collides_with`), evaluated on sprites of different
widths. The one-pixel sprite and the two-pixel sprite both have a solid pixel
at column 0, row 0, so at offset `(0, 0)` these pixels coincide (`c = c1 + dx`,
`r1 = r + dy`); the call returns `false`, because the masks of the two rows are
compared aligned at their last column, not at column 0. -/
theorem collides_unequal_widths_miss :
    Sprite.new one_px_tile = .ok one_px_sprite ∧ Sprite.new two_px_tile = .ok two_px_sprite ∧
      one_px_tile.size.1 ≤ 64 ∧ two_px_tile.size.1 ≤ 64 ∧
      collides_with one_px_sprite two_px_sprite (0, 0) = .ok false ∧
      ∃ c r c1 r1 : Nat, (c : Int) < one_px_tile.size.1 ∧ (r : Int) < one_px_tile.size.2 ∧
        (c1 : Int) < two_px_tile.size.1 ∧ (r1 : Int) < two_px_tile.size.2 ∧
        one_px_tile.solid c r = true ∧ two_px_tile.solid c1 r1 = true ∧
        (c : Int) = c1 + 0 ∧ (r1 : Int) = r + 0 :=
  ⟨rfl, rfl, by decide, by decide, rfl, 0, 0, 0, 0, by decide, by decide, by decide, by decide,
    rfl, rfl, by decide, by decide⟩

/-- For two constructed sprites of the same tile width, at most 64, and
non-negative heights, and every integer offset `(dx, dy)`, except `dx = 64` and
`dx = -64` when the width is 64 (one of the two calls would shift by 64),
`A.collides_with(B, (dx, dy))` and `B.collides_with(A, (-dx, -dy))` both
return, with the same value. -/
theorem collides_with_symm_equal_width (tA tB : Tile) (A B : Sprite)
    (hA : Sprite.new tA = .ok A) (hB : Sprite.new tB = .ok B)
    (hW : tA.size.1 = tB.size.1) (hW64 : tA.size.1 ≤ 64)
    (hHA : 0 ≤ tA.size.2) (hHB : 0 ≤ tB.size.2)
    (dx dy : Int) (h64 : tA.size.1 = 64 → dx ≠ -64 ∧ dx ≠ 64) :
    collides_with A B (dx, dy) = collides_with B A (-dx, -dy) ∧
      ∃ b, collides_with A B (dx, dy) = .ok b := by
  obtain ⟨b1, hb1, hiff1⟩ := collides_with_spec tA tB A B hA hB hW hW64 hHA dx dy
    (fun hw => (h64 hw).1)
  obtain ⟨b2, hb2, hiff2⟩ := collides_with_spec tB tA B A hB hA hW.symm (by omega) hHB
    (-dx) (-dy) (fun hw => by have := (h64 (hW.trans hw)).2; omega)
  refine ⟨?_, b1, hb1⟩
  rw [hb1, hb2]
  congr 1
  rw [Bool.eq_iff_iff, hiff1, hiff2]
  constructor
  · rintro ⟨c, r, c1, r1, h1, h2, h3, h4, h5, h6, h7, h8⟩
    exact ⟨c1, r1, c, r, h3, h4, h1, h2, h6, h5, by omega, by omega⟩
  · rintro ⟨c, r, c1, r1, h1, h2, h3, h4, h5, h6, h7, h8⟩
    exact ⟨c1, r1, c, r, h3, h4, h1, h2, h6, h5, by omega, by omega⟩

/-- C6 (symmetry of the collision test), evaluated on sprites of different
widths. With `A` the one-pixel sprite and `B` the two-pixel sprite,
`A.collides_with(B, (1, 0))` is `false` (early reject) while
`B.collides_with(A, (-1, 0))` is `true`. -/
theorem collides_unequal_widths_asymmetric :
    Sprite.new one_px_tile = .ok one_px_sprite ∧ Sprite.new two_px_tile = .ok two_px_sprite ∧
      one_px_tile.size.1 ≤ 64 ∧ two_px_tile.size.1 ≤ 64 ∧
      collides_with one_px_sprite two_px_sprite (1, 0) = .ok false ∧
      collides_with two_px_sprite one_px_sprite (-1, -0) = .ok true :=
  ⟨rfl, rfl, by decide, by decide, rfl, rfl⟩

/-- C7 as amended (mask layout). For every tile of width `W ≤ 64` and
non-negative height that lies inside the pixel data of an RGBA pixmap,
construction succeeds and yields
exactly one mask per pixel row of the tile; for every row `i` and column `j`
inside the tile, bit `W - 1 - j` of mask row `i` is 1 if and only if the top
byte of the 32-bit pixel read at `(tile.x + j, tile.y + i)` is greater than
`0x7F`. -/
theorem mask_layout (tile : Tile) (htype : tile.pixmap.type = PixelType.RGBAlpha)
    (hin : tile.in_bounds) (hW : tile.size.1 ≤ 64) (hH : 0 ≤ tile.size.2) :
    ∃ s, Sprite.new tile = .ok s ∧ s.tile = tile ∧ s.masks_.length = tile.size.2.toNat ∧
      ∀ i j : Nat, i < tile.size.2.toNat → j < tile.size.1.toNat →
        ∃ m pixel, s.masks_[i]? = some m ∧
          read_pixel tile.pixmap
            (((i : Int) + tile.position.2) * tile.pixmap.width + (j : Int) + tile.position.1) =
            .ok pixel ∧
          (m.testBit (tile.size.1.toNat - 1 - j) = true ↔ pixel >>> 24 > 0x7f) := by
  obtain ⟨s, hs⟩ := sprite_new_ok tile htype hH hin
  obtain ⟨ht, hlen, hm⟩ := sprite_new_masks tile s hs
  refine ⟨s, hs, ht, hlen, fun i j hi hj => ?_⟩
  obtain ⟨m, hm1, _, hbits⟩ := hm i hi
  obtain ⟨h0, h1⟩ := hin i j hi hj
  obtain ⟨pixel, hp⟩ := read_pixel_ok tile.pixmap _ h0 h1
  refine ⟨m, pixel, hm1, hp, ?_⟩
  have h2 : tile.size.1.toNat - 1 - (tile.size.1.toNat - 1 - j) = j := by omega
  have h3 : tile.size.1.toNat - 1 - j < 64 := by omega
  have h4 : tile.size.1.toNat - 1 - j < tile.size.1.toNat := by omega
  rw [hbits, h2]
  simp only [h3, h4, decide_True, Bool.true_and, Tile.solid, hp, alpha_set, decide_eq_true_eq]

/-- The amended layout statement applied to `two_px_tile`. -/
theorem mask_layout_witness :
    two_px_tile.pixmap.type = PixelType.RGBAlpha ∧ two_px_tile.in_bounds ∧
      two_px_tile.size.1 ≤ 64 ∧ 0 ≤ two_px_tile.size.2 ∧
      ∃ s, Sprite.new two_px_tile = .ok s ∧ s.tile = two_px_tile ∧
        s.masks_.length = two_px_tile.size.2.toNat ∧
        ∀ i j : Nat, i < two_px_tile.size.2.toNat → j < two_px_tile.size.1.toNat →
          ∃ m pixel, s.masks_[i]? = some m ∧
            read_pixel two_px_tile.pixmap
              (((i : Int) + two_px_tile.position.2) * two_px_tile.pixmap.width + (j : Int) +
                two_px_tile.position.1) = .ok pixel ∧
            (m.testBit (two_px_tile.size.1.toNat - 1 - j) = true ↔ pixel >>> 24 > 0x7f) :=
  ⟨rfl, two_px_tile_in_bounds, by decide, by decide,
    mask_layout two_px_tile rfl two_px_tile_in_bounds (by decide) (by decide)⟩

/-- C7 as stated fails: for `two_px_tile` (width 2, pixel `(0, 0)` with alpha
`0xFF`, pixel `(1, 0)` with alpha 0) the single mask row is 2, so bit 0 is 0
although the alpha byte of pixel `(tile.x + 0, tile.y + 0)` exceeds `0x7F`, and
bit 1 is 1 although the alpha byte of pixel `(tile.x + 1, tile.y + 0)` does
not. -/
theorem mask_layout_counterexample :
    two_px_tile.size.1 ≤ 64 ∧ two_px_tile.pixmap.type = PixelType.RGBAlpha ∧
      ∃ s, Sprite.new two_px_tile = .ok s ∧ s.masks_ = [2] ∧
        Nat.testBit 2 0 = false ∧
        read_pixel two_px_tile.pixmap ((0 + two_px_tile.position.2) * two_px_tile.pixmap.width +
          0 + two_px_tile.position.1) = .ok 0xFF000000 ∧
        0xFF000000 >>> 24 > 0x7f ∧
        Nat.testBit 2 1 = true ∧
        read_pixel two_px_tile.pixmap ((0 + two_px_tile.position.2) * two_px_tile.pixmap.width +
          1 + two_px_tile.position.1) = .ok 0 ∧
        ¬ (0 >>> 24 > 0x7f) :=
  ⟨by decide, rfl, two_px_sprite, rfl, rfl, rfl, rfl, by decide, rfl, rfl, by decide⟩

/-- C8 as amended (failure of sprite construction). Construction fails with a
precondition violation when the pixmap is not in the RGBA format, and it
succeeds only for RGBA pixmaps; the tile width is not checked: on an RGBA
pixmap whose pixel data covers a tile of non-negative height, construction
succeeds for every tile width, also above 64, with one mask per row. -/
theorem sprite_new_format_only (tile : Tile) :
    (tile.pixmap.type ≠ PixelType.RGBAlpha → Sprite.new tile = .error Fault.assertion) ∧
      (∀ s, Sprite.new tile = .ok s → tile.pixmap.type = PixelType.RGBAlpha) ∧
      (tile.pixmap.type = PixelType.RGBAlpha → 0 ≤ tile.size.2 → tile.in_bounds →
        ∃ s, Sprite.new tile = .ok s ∧ s.masks_.length = tile.size.2.toNat) := by
  refine ⟨(sprite_new_assertion_iff tile).mpr, fun s hs => ?_, fun htype hH hin => ?_⟩
  · by_contra htype
    rw [(sprite_new_assertion_iff tile).mpr htype] at hs
    cases hs
  · obtain ⟨s, hs⟩ := sprite_new_ok tile htype hH hin
    exact ⟨s, hs, (sprite_new_masks tile s hs).2.1⟩

/-- The amended construction statement applied to `wide_tile`, of width 65. -/
theorem sprite_new_format_only_witness :
    wide_tile.pixmap.type = PixelType.RGBAlpha ∧ 0 ≤ wide_tile.size.2 ∧
      wide_tile.in_bounds ∧
      ∃ s, Sprite.new wide_tile = .ok s ∧ s.masks_.length = wide_tile.size.2.toNat :=
  ⟨rfl, by decide, wide_tile_in_bounds,
    (sprite_new_format_only wide_tile).2.2 rfl (by decide) wide_tile_in_bounds⟩

/-- C8 as stated fails: `wide_tile` has width 65, above the 64 bits of a mask,
and construction succeeds on it; its only mask row is 0 although the pixel in
column 0 is solid (its bit has been shifted out). -/
theorem sprite_new_wide_counterexample :
    wide_tile.size.1 = 65 ∧ wide_tile.pixmap.type = PixelType.RGBAlpha ∧
      Sprite.new wide_tile = .ok { tile := wide_tile, masks_ := [0] } ∧
      wide_tile.solid 0 0 = true :=
  ⟨rfl, rfl, rfl, rfl⟩

theorem collides_at_row_congr (A B B1 : Sprite) (hsize : B1.tile.size = B.tile.size)
    (hmasks : B1.masks_ = B.masks_) (dy dx : Int) (row : Nat) :
    collides_at_row A B1 dy dx row = collides_at_row A B dy dx row := by
  simp only [collides_at_row, hsize, hmasks]

theorem collides_loop_congr (A B B1 : Sprite) (hsize : B1.tile.size = B.tile.size)
    (hmasks : B1.masks_ = B.masks_) (dy dx : Int) (todo row : Nat) :
    collides_loop A B1 dy dx todo row = collides_loop A B dy dx todo row := by
  induction todo generalizing row with
  | zero => rfl
  | succ todo ih =>
    simp only [collides_loop, collides_at_row_congr A B B1 hsize hmasks, ih]

/-- The collision test reads only the tile size and the masks of the other
sprite. -/
theorem collides_with_congr (A B B1 : Sprite) (hsize : B1.tile.size = B.tile.size)
    (hmasks : B1.masks_ = B.masks_) (pos : Int × Int) :
    collides_with A B1 pos = collides_with A B pos := by
  simp only [collides_with, hsize, collides_loop_congr A B B1 hsize hmasks]

/-- C9 (identical sprites at offset zero). For every constructed sprite with
tile width at most 64 and at least one solid pixel (so its width is at least 1
and its mask is non-empty), `collides_with` an identical sprite (same tile size
and same mask rows) at offset `(0, 0)` returns `true`. -/
theorem identical_sprites_collide (tile : Tile) (s other : Sprite)
    (hs : Sprite.new tile = .ok s) (hW64 : tile.size.1 ≤ 64)
    (hsolid : ∃ c r : Nat, (c : Int) < tile.size.1 ∧ (r : Int) < tile.size.2 ∧
      tile.solid c r = true)
    (hsize : other.tile.size = s.tile.size) (hmasks : other.masks_ = s.masks_) :
    collides_with s other (0, 0) = .ok true := by
  obtain ⟨c, r, hc, hr, hcr⟩ := hsolid
  rw [collides_with_congr s s other hsize hmasks]
  obtain ⟨b, hb, hiff⟩ := collides_with_spec tile tile s s hs hs rfl hW64 (by omega) 0 0
    (fun _ => by decide)
  have hb1 : b = true := hiff.mpr ⟨c, r, c, r, hc, hr, hc, hr, hcr, hcr, by omega, by omega⟩
  rw [hb, hb1]

/-- The identical-sprites statement applied to `two_px_tile` and its sprite. -/
theorem identical_sprites_collide_witness :
    Sprite.new two_px_tile = .ok two_px_sprite ∧ two_px_tile.size.1 ≤ 64 ∧
      (∃ c r : Nat, (c : Int) < two_px_tile.size.1 ∧ (r : Int) < two_px_tile.size.2 ∧
        two_px_tile.solid c r = true) ∧
      collides_with two_px_sprite two_px_sprite (0, 0) = .ok true :=
  have hsolid : ∃ c r : Nat, (c : Int) < two_px_tile.size.1 ∧ (r : Int) < two_px_tile.size.2 ∧
      two_px_tile.solid c r = true := ⟨0, 0, by decide, by decide, rfl⟩
  ⟨rfl, by decide, hsolid,
    identical_sprites_collide two_px_tile two_px_sprite two_px_sprite rfl (by decide) hsolid
      rfl rfl⟩

/-- C10 (horizontal boundary). For all sprites `self` and `other`, whatever
their masks, and every vertical offset `dy`, `self.collides_with(other, (w, dy))`
with `w` the tile width of `self` returns `false`. -/
theorem collides_at_width_false (self other : Sprite) (dy : Int) :
    collides_with self other (self.tile.size.1, dy) = .ok false := by
  simp [collides_with]

/-! ## The bitmask test against the naive pixel test -/

theorem naive_pixel_test_iff (this other : Tile) (dx dy : Int) :
    naive_pixel_test this other dx dy = true ↔
      ∃ c r c1 r1 : Nat, (c : Int) < this.size.1 ∧ (r : Int) < this.size.2 ∧
        (c1 : Int) < other.size.1 ∧ (r1 : Int) < other.size.2 ∧
        this.solid c r = true ∧ other.solid c1 r1 = true ∧
        (c : Int) = c1 + dx ∧ (r1 : Int) = r + dy := by
  simp only [naive_pixel_test, List.any_eq_true, List.mem_range, Bool.and_eq_true,
    decide_eq_true_eq]
  constructor
  · rintro ⟨r, hr, c, hc, r1, hr1, c1, hc1, ⟨⟨hs, hs1⟩, h1⟩, h2⟩
    exact ⟨c, r, c1, r1, by omega, by omega, by omega, by omega, hs, hs1, h1, h2⟩
  · rintro ⟨c, r, c1, r1, hc, hr, hc1, hr1, hs, hs1, h1, h2⟩
    exact ⟨r, by omega, c, by omega, r1, by omega, c1, by omega, ⟨⟨hs, hs1⟩, h1⟩, h2⟩

/-- Where the bitmask test does agree with the naive pixel test: two constructed
sprites of the same tile width, at most 64, the first of non-negative height,
and every integer offset other than `dx = -64` at width 64. -/
theorem collides_with_eq_naive (tA tB : Tile) (A B : Sprite)
    (hA : Sprite.new tA = .ok A) (hB : Sprite.new tB = .ok B)
    (hW : tA.size.1 = tB.size.1) (hW64 : tA.size.1 ≤ 64) (hH : 0 ≤ tA.size.2)
    (dx dy : Int) (h64 : tA.size.1 = 64 → dx ≠ -64) :
    collides_with A B (dx, dy) = .ok (naive_pixel_test tA tB dx dy) := by
  obtain ⟨b, hb, hiff⟩ := collides_with_spec tA tB A B hA hB hW hW64 hH dx dy h64
  rw [hb]
  congr 1
  rw [Bool.eq_iff_iff, hiff, naive_pixel_test_iff]

set_option maxRecDepth 100000 in
theorem full64_tile_new : Sprite.new full64_tile = .ok full64_sprite := rfl

/-- C11 (bitmask test against the naive pixel test), evaluated at tile width 64
and `dx = -64`. Two sprites constructed from `full64_tile` (same width 64,
every pixel solid) at offset `(-64, 0)`: the early reject lets the offset pass
(`-64 < -64` is false), the row loop evaluates `other_mask << 64` on a 64-bit
mask, and the call has no defined value, while the naive pixel test is `false`
(no columns `c`, `c1` below 64 satisfy `c = c1 - 64`). One column further,
at `dx = -65`, the early reject applies and both tests are `false`. -/
theorem collides_shift_by_width_64 :
    Sprite.new full64_tile = .ok full64_sprite ∧ full64_tile.size.1 = 64 ∧
      collides_with full64_sprite full64_sprite (-64, 0) = .error Fault.undefined ∧
      naive_pixel_test full64_tile full64_tile (-64) 0 = false ∧
      collides_with full64_sprite full64_sprite (-65, 0) = .ok false ∧
      naive_pixel_test full64_tile full64_tile (-65) 0 = false := by
  refine ⟨full64_tile_new, rfl, rfl, ?_, rfl, ?_⟩
  · rw [Bool.eq_false_iff, ne_eq, naive_pixel_test_iff]
    rintro ⟨c, r, c1, r1, h1, _, h3, _, _, _, h7, _⟩
    simp only [full64_tile] at h1 h3
    omega
  · rw [Bool.eq_false_iff, ne_eq, naive_pixel_test_iff]
    rintro ⟨c, r, c1, r1, h1, _, h3, _, _, _, h7, _⟩
    simp only [full64_tile] at h1 h3
    omega

end Zapray
